import Mathlib

/-!
DMA controller of NanoboyAdvance (`src/core/dma.cpp`).

A shallow embedding of `DMAController` (register protocol, scheduler and
transfer engine) together with theorems about it.

Conventions of the embedding.

* Machine integers are natural numbers; where the source relies on a fixed
  width the reduction `% 2 ^ w` is written out (`std::uint8_t` results
  `% 256`, the 16-bit `length` register `% 65536`, 32-bit addresses
  `% 4294967296`).
* `int` values that may be negative (`current`, the entries of
  `g_dma_modify` and `g_dma_from_bitset`) are `Int`.
* The four channels `dma[0..3]` are four fields of the controller record;
  `DMAController.dma` and `DMAController.setDma` are the array read and the
  array write.  An index outside `0..3` is outside the array in the source
  (undefined there); the embedding reads the reset channel and writes
  nothing for it, and no theorem below relies on that choice.
* The collaborator `cpu` (bus accesses, cycle budget, interrupt flag
  register) is not part of the file under study: it is a parameter
  (`CPU M`), with `M` the collaborator's own state.  A bus access may
  change `M` in any way (consume cycles, change memory) but does not
  re-enter the controller: the registers of `DMAController` and
  `cpu->mmio.irq_if` are changed by the code of `dma.cpp` only.
* The enumerations `DMASize`, `DMATime` and `DMAControl` are stored as
  their numeric value.  Theorems about `Run` assume that `size` is one of
  the enumerators and, where the step table is read, that the address
  controls are at most 3; `Write` stores no other value.
-/

namespace NanoboyAdvance

/-! ## Constants -/

/-- Table `g_dma_dst_mask` (dma.cpp line 14). -/
def g_dma_dst_mask : List Nat := [0x07FFFFFF, 0x07FFFFFF, 0x07FFFFFF, 0x0FFFFFFF]

/-- Table `g_dma_src_mask` (dma.cpp line 15). -/
def g_dma_src_mask : List Nat := [0x07FFFFFF, 0x0FFFFFFF, 0x0FFFFFFF, 0x0FFFFFFF]

/-- Table `g_dma_len_mask` (dma.cpp line 16). -/
def g_dma_len_mask : List Nat := [0x3FFF, 0x3FFF, 0x3FFF, 0xFFFF]

/-- Table `g_dma_modify[2][4]` (dma.cpp lines 19-22): the signed address step,
indexed by transfer size and then by address control. -/
def g_dma_modify : List (List Int) := [[2, -2, 0, 2], [4, -4, 0, 4]]

/-- Table `g_dma_from_bitset[16]` (dma.cpp lines 25-42). -/
def g_dma_from_bitset : List Int :=
  [-1, 0, 1, 0, 2, 0, 1, 0, 3, 0, 1, 0, 2, 0, 1, 0]

/-- Modelled from the spec: enumerator `DMA_INCREMENT` of `DMAControl`, declared
in the absent `dma.hpp`; the address controls are listed in the order
Increment, Decrement, Fixed, IncrementReload, the column order of the step table. -/
def DMA_INCREMENT : Nat := 0

/-- Modelled from the spec: enumerator `DMA_DECREMENT` of `DMAControl` (absent `dma.hpp`). -/
def DMA_DECREMENT : Nat := 1

/-- Modelled from the spec: enumerator `DMA_FIXED` of `DMAControl` (absent `dma.hpp`). -/
def DMA_FIXED : Nat := 2

/-- Modelled from the spec: enumerator `DMA_RELOAD` of `DMAControl` (absent `dma.hpp`),
the IncrementReload control. -/
def DMA_RELOAD : Nat := 3

/-- Modelled from the spec: enumerator `DMA_IMMEDIATE` of `DMATime` (absent `dma.hpp`);
the timing codes are Immediate = 0, VBlank = 1, HBlank = 2, Special = 3. -/
def DMA_IMMEDIATE : Nat := 0

/-- Modelled from the spec: enumerator `DMA_VBLANK` of `DMATime` (absent `dma.hpp`). -/
def DMA_VBLANK : Nat := 1

/-- Modelled from the spec: enumerator `DMA_HBLANK` of `DMATime` (absent `dma.hpp`). -/
def DMA_HBLANK : Nat := 2

/-- Modelled from the spec: enumerator `DMA_SPECIAL` of `DMATime` (absent `dma.hpp`). -/
def DMA_SPECIAL : Nat := 3

/-- Modelled from the spec: enumerator `DMA_HWORD` of `DMASize` (absent `dma.hpp`);
half-word is row 0 of the step table. -/
def DMA_HWORD : Nat := 0

/-- Modelled from the spec: enumerator `DMA_WORD` of `DMASize` (absent `dma.hpp`);
word is row 1 of the step table. -/
def DMA_WORD : Nat := 1

/-! ## Data model -/

/-- Modelled from the spec: the latched state `dma[id].internal`, whose declaration
is in the absent `dma.hpp`.  The three counters are 32-bit (the length must hold
`0xFFFF + 1 = 65536` for channel 3). -/
structure Internal where
  length : Nat
  dst_addr : Nat
  src_addr : Nat
deriving DecidableEq, Repr

/-- Modelled from the spec: one channel record `dma[id]`, whose declaration is in
the absent `dma.hpp`.  `src_addr` and `dst_addr` are 32-bit, `length` is 16-bit;
`dst_cntl`, `src_cntl`, `time` and `size` hold the numeric value of their
enumeration.  The field `repeat` of the source is `repeat_` here, `repeat` being a
reserved word. -/
structure DMA where
  enable : Bool
  repeat_ : Bool
  interrupt : Bool
  gamepak : Bool
  length : Nat
  dst_addr : Nat
  src_addr : Nat
  internal : Internal
  size : Nat
  time : Nat
  dst_cntl : Nat
  src_cntl : Nat
deriving DecidableEq, Repr

/-- The value `Reset` gives every channel (dma.cpp lines 52-65). -/
def DMA.reset : DMA :=
  { enable := false, repeat_ := false, interrupt := false, gamepak := false,
    length := 0, dst_addr := 0, src_addr := 0,
    internal := { length := 0, dst_addr := 0, src_addr := 0 },
    size := DMA_HWORD, time := DMA_IMMEDIATE,
    dst_cntl := DMA_INCREMENT, src_cntl := DMA_INCREMENT }

/-- Modelled from the spec: the member variables of `DMAController`, declared in the
absent `dma.hpp`: three channel bit sets, the selected channel, the preemption
flag and the array `dma[4]`. -/
structure DMAController where
  hblank_set : Nat
  vblank_set : Nat
  run_set : Nat
  current : Int
  interleaved : Bool
  dma0 : DMA
  dma1 : DMA
  dma2 : DMA
  dma3 : DMA
deriving DecidableEq, Repr

/-- Array read `dma[id]`. -/
def DMAController.dma (s : DMAController) (id : Nat) : DMA :=
  match id with
  | 0 => s.dma0
  | 1 => s.dma1
  | 2 => s.dma2
  | 3 => s.dma3
  | _ => DMA.reset

/-- Array write `dma[id] = d`. -/
def DMAController.setDma (s : DMAController) (id : Nat) (d : DMA) : DMAController :=
  match id with
  | 0 => { s with dma0 := d }
  | 1 => { s with dma1 := d }
  | 2 => { s with dma2 := d }
  | 3 => { s with dma3 := d }
  | _ => s

/-- Bitwise complement `~x` of a 32-bit `int`, as the 32-bit pattern. -/
def bitNot32 (x : Nat) : Nat := 0xFFFFFFFF ^^^ x

/-- The update `a += d` of a `std::uint32_t` by a signed step. -/
def addWrap32 (a : Nat) (d : Int) : Nat := (((a : Int) + d) % 4294967296).toNat

/-! ## Reset, Read, Write -/

/-- `DMAController::Reset` (dma.cpp lines 44-67). -/
def Reset : DMAController :=
  { hblank_set := 0, vblank_set := 0, run_set := 0, current := 0, interleaved := false,
    dma0 := DMA.reset, dma1 := DMA.reset, dma2 := DMA.reset, dma3 := DMA.reset }

/-- `DMAController::Read` (dma.cpp lines 69-88); the result is a `std::uint8_t`. -/
def Read (s : DMAController) (id : Nat) (offset : Nat) : Nat :=
  match offset with
  | 10 => (((s.dma id).dst_cntl <<< 5) ||| ((s.dma id).src_cntl <<< 7)) % 256
  | 11 => (((s.dma id).src_cntl >>> 1) |||
           ((s.dma id).size <<< 2) |||
           ((s.dma id).time <<< 4) |||
           (if (s.dma id).repeat_ then 2 else 0) |||
           (if (s.dma id).gamepak then 8 else 0) |||
           (if (s.dma id).interrupt then 64 else 0) |||
           (if (s.dma id).enable then 128 else 0)) % 256
  | _ => 0

/-- `DMAController::MarkDMAForExecution` (dma.cpp lines 188-202). -/
def MarkDMAForExecution (s : DMAController) (id : Nat) : DMAController :=
  let s1 :=
    if s.run_set = 0 then { s with current := (id : Int) }
    else if (id : Int) < s.current then { s with current := (id : Int), interleaved := true }
    else s
  { s1 with run_set := s1.run_set ||| (1 <<< id) }

/-- The updates of `hblank_set` and `vblank_set` in `Write`, case 11
(dma.cpp lines 155-165). -/
def updateBlankSets (s : DMAController) (id : Nat) (time : Nat) : DMAController :=
  if time = DMA_HBLANK then
    { s with hblank_set := s.hblank_set ||| (1 <<< id),
             vblank_set := s.vblank_set &&& bitNot32 (1 <<< id) }
  else if time = DMA_VBLANK then
    { s with hblank_set := s.hblank_set &&& bitNot32 (1 <<< id),
             vblank_set := s.vblank_set ||| (1 <<< id) }
  else
    { s with hblank_set := s.hblank_set &&& bitNot32 (1 <<< id),
             vblank_set := s.vblank_set &&& bitNot32 (1 <<< id) }

/-- The sanitized length latched on arming and on repeat: `length & g_dma_len_mask[id]`,
replaced by `g_dma_len_mask[id] + 1` when zero (dma.cpp lines 172-176 and 278-281). -/
def latchLength (length : Nat) (id : Nat) : Nat :=
  let l := length &&& g_dma_len_mask.getD id 0
  if l = 0 then g_dma_len_mask.getD id 0 + 1 else l

/-- `DMAController::Write`, case 11 (dma.cpp lines 144-184). -/
def Write11 (s : DMAController) (id : Nat) (value : Nat) : DMAController :=
  let enable_previous := (s.dma id).enable
  let d : DMA :=
    { (s.dma id) with
      src_cntl := ((s.dma id).src_cntl &&& 1) ||| ((value &&& 1) <<< 1),
      size := (value >>> 2) &&& 1,
      time := (value >>> 4) &&& 3,
      repeat_ := (value &&& 2) != 0,
      gamepak := (value &&& 8) != 0,
      interrupt := (value &&& 64) != 0,
      enable := (value &&& 128) != 0 }
  let s1 := updateBlankSets (s.setDma id d) id d.time
  if !enable_previous && d.enable then
    let d1 : DMA :=
      { d with internal :=
          { dst_addr := d.dst_addr &&& g_dma_dst_mask.getD id 0,
            src_addr := d.src_addr &&& g_dma_src_mask.getD id 0,
            length := latchLength d.length id } }
    let s2 := s1.setDma id d1
    if d1.time = DMA_IMMEDIATE then MarkDMAForExecution s2 id else s2
  else s1

/-- `DMAController::Write` (dma.cpp lines 90-186); `value` is a `std::uint8_t`. -/
def Write (s : DMAController) (id : Nat) (offset : Nat) (value : Nat) : DMAController :=
  match offset with
  | 0 => s.setDma id { (s.dma id) with
      src_addr := (((s.dma id).src_addr &&& 0xFFFFFF00) ||| (value <<< 0)) % 4294967296 }
  | 1 => s.setDma id { (s.dma id) with
      src_addr := (((s.dma id).src_addr &&& 0xFFFF00FF) ||| (value <<< 8)) % 4294967296 }
  | 2 => s.setDma id { (s.dma id) with
      src_addr := (((s.dma id).src_addr &&& 0xFF00FFFF) ||| (value <<< 16)) % 4294967296 }
  | 3 => s.setDma id { (s.dma id) with
      src_addr := (((s.dma id).src_addr &&& 0x00FFFFFF) ||| (value <<< 24)) % 4294967296 }
  | 4 => s.setDma id { (s.dma id) with
      dst_addr := (((s.dma id).dst_addr &&& 0xFFFFFF00) ||| (value <<< 0)) % 4294967296 }
  | 5 => s.setDma id { (s.dma id) with
      dst_addr := (((s.dma id).dst_addr &&& 0xFFFF00FF) ||| (value <<< 8)) % 4294967296 }
  | 6 => s.setDma id { (s.dma id) with
      dst_addr := (((s.dma id).dst_addr &&& 0xFF00FFFF) ||| (value <<< 16)) % 4294967296 }
  | 7 => s.setDma id { (s.dma id) with
      dst_addr := (((s.dma id).dst_addr &&& 0x00FFFFFF) ||| (value <<< 24)) % 4294967296 }
  | 8 => s.setDma id { (s.dma id) with
      length := (((s.dma id).length &&& 0xFF00) ||| (value <<< 0)) % 65536 }
  | 9 => s.setDma id { (s.dma id) with
      length := (((s.dma id).length &&& 0x00FF) ||| (value <<< 8)) % 65536 }
  | 10 => s.setDma id { (s.dma id) with
      dst_cntl := (value >>> 5) &&& 3,
      src_cntl := ((s.dma id).src_cntl &&& 2) ||| (value >>> 7) }
  | 11 => Write11 s id value
  | _ => s

/-! ## Scheduler -/

/-- `DMAController::TriggerHBlankDMA` (dma.cpp lines 204-209). -/
def TriggerHBlankDMA (s : DMAController) : DMAController :=
  let hblank_dma := g_dma_from_bitset.getD (s.run_set &&& s.hblank_set) (-1)
  if hblank_dma ≥ 0 then MarkDMAForExecution s hblank_dma.toNat else s

/-- `DMAController::TriggerVBlankDMA` (dma.cpp lines 211-216). -/
def TriggerVBlankDMA (s : DMAController) : DMAController :=
  let vblank_dma := g_dma_from_bitset.getD (s.run_set &&& s.vblank_set) (-1)
  if vblank_dma ≥ 0 then MarkDMAForExecution s vblank_dma.toNat else s

/-! ## Execution engine -/

/-- Interface of the collaborator `cpu` used by `Run`, declared in the absent `cpu.hpp`
and taken as a parameter: the cycle budget `cpu->run_until`, the four bus accesses
(each may change the collaborator's state `M`, e.g. consume cycles; the access hint
is always `ACCESS_SEQ`) and the constant `CPU::INT_DMA0`. -/
structure CPU (M : Type) where
  run_until : M → Int
  ReadWord : M → Nat → Nat × M
  WriteWord : M → Nat → Nat → M
  ReadHalf : M → Nat → Nat × M
  WriteHalf : M → Nat → Nat → M
  INT_DMA0 : Nat

/-- One bus access made by the engine: the unit size (`DMA_WORD` or `DMA_HWORD`),
the address and, for a write, the value written. -/
inductive BusOp where
  | read (size : Nat) (addr : Nat)
  | write (size : Nat) (addr : Nat) (word : Nat)
deriving DecidableEq, Repr

/-- Everything `Run` can touch: the controller, the collaborator's state, the interrupt
flag register `cpu->mmio.irq_if`, and (ghost) the list of bus accesses made so far,
oldest first. -/
structure System (M : Type) where
  dmac : DMAController
  ext : M
  irq_if : Nat
  bus : List BusOp

/-- The read of one unit: `cpu->ReadWord` in the `DMA_WORD` loop, `cpu->ReadHalf` in
the `DMA_HWORD` loop. -/
def CPU.readUnit {M : Type} (cpu : CPU M) (size : Nat) (m : M) (addr : Nat) : Nat × M :=
  if size = DMA_WORD then cpu.ReadWord m addr else cpu.ReadHalf m addr

/-- The write of one unit: `cpu->WriteWord` in the `DMA_WORD` loop, `cpu->WriteHalf` in
the `DMA_HWORD` loop. -/
def CPU.writeUnit {M : Type} (cpu : CPU M) (size : Nat) (m : M) (addr : Nat) (word : Nat) : M :=
  if size = DMA_WORD then cpu.WriteWord m addr word else cpu.WriteHalf m addr word

/-- The variables a transfer loop works on, when the loop is left: `completed` tells
whether the loop condition failed (`true`) or a `return` inside the loop was taken
(`false`). -/
structure Burst (M : Type) where
  completed : Bool
  length : Nat
  src_addr : Nat
  dst_addr : Nat
  interleaved : Bool
  ext : M
  bus : List BusOp

/-- The loop `while (dma.internal.length != 0) { ... }` of `Run` (dma.cpp lines 231-246
for words, 250-265 for half-words; the two differ in the bus access only).  The
arguments after the steps are `dma.internal.length`, `dma.internal.src_addr`,
`dma.internal.dst_addr`, `interleaved`, the collaborator state and the access log.
Every iteration decrements the length, which is the recursion. -/
def transferLoop {M : Type} (cpu : CPU M) (size : Nat) (src_modify dst_modify : Int) :
    Nat → Nat → Nat → Bool → M → List BusOp → Burst M
  | 0, src_addr, dst_addr, interleaved, m, bus =>
    { completed := true, length := 0, src_addr := src_addr, dst_addr := dst_addr,
      interleaved := interleaved, ext := m, bus := bus }
  | length + 1, src_addr, dst_addr, interleaved, m, bus =>
    if cpu.run_until m ≤ 0 then
      { completed := false, length := length + 1, src_addr := src_addr, dst_addr := dst_addr,
        interleaved := interleaved, ext := m, bus := bus }
    else if interleaved then
      { completed := false, length := length + 1, src_addr := src_addr, dst_addr := dst_addr,
        interleaved := false, ext := m, bus := bus }
    else
      let word := (cpu.readUnit size m src_addr).1
      let m1 := (cpu.readUnit size m src_addr).2
      let m2 := cpu.writeUnit size m1 dst_addr word
      transferLoop cpu size src_modify dst_modify length
        (addWrap32 src_addr src_modify) (addWrap32 dst_addr dst_modify) interleaved m2
        (bus ++ [BusOp.read size src_addr, BusOp.write size dst_addr word])

/-- The first part of `Run` (dma.cpp lines 219-268): the steps are looked up in
`g_dma_modify`, then the loop for the channel's size runs.  A `size` that is neither
enumerator matches no `case` and leaves the `switch` at once. -/
def RunBurst {M : Type} (cpu : CPU M) (sys : System M) : Burst M :=
  let dma := sys.dmac.dma sys.dmac.current.toNat
  let src_modify := (g_dma_modify.getD dma.size []).getD dma.src_cntl 0
  let dst_modify := (g_dma_modify.getD dma.size []).getD dma.dst_cntl 0
  if dma.size = DMA_WORD ∨ dma.size = DMA_HWORD then
    transferLoop cpu dma.size src_modify dst_modify dma.internal.length
      dma.internal.src_addr dma.internal.dst_addr sys.dmac.interleaved sys.ext sys.bus
  else
    { completed := true, length := dma.internal.length, src_addr := dma.internal.src_addr,
      dst_addr := dma.internal.dst_addr, interleaved := sys.dmac.interleaved,
      ext := sys.ext, bus := sys.bus }

/-- The system once the loop is left: the loop variables stored back into
`dma[current].internal`, `interleaved`, the collaborator and the log. -/
def storeBurst {M : Type} (sys : System M) (b : Burst M) : System M :=
  let dma := sys.dmac.dma sys.dmac.current.toNat
  let dma1 : DMA :=
    { dma with internal := { length := b.length, dst_addr := b.dst_addr, src_addr := b.src_addr } }
  { sys with
    dmac := { (sys.dmac.setDma sys.dmac.current.toNat dma1) with interleaved := b.interleaved },
    ext := b.ext, bus := b.bus }

/-- The second part of `Run` (dma.cpp lines 270-299), reached when the loop ran to
completion; `dst_cntl` is the local copy taken at the start of `Run`. -/
def RunCompletion {M : Type} (cpu : CPU M) (sys : System M) (dst_cntl : Nat) : System M :=
  let current := sys.dmac.current.toNat
  let dma := sys.dmac.dma current
  let irq_if :=
    if dma.interrupt then sys.irq_if ||| (cpu.INT_DMA0 <<< current) else sys.irq_if
  let c1 : DMAController :=
    if dma.repeat_ then
      let d1 : DMA :=
        { dma with internal := { dma.internal with length := latchLength dma.length current } }
      let d2 : DMA :=
        if dst_cntl = DMA_RELOAD then
          { d1 with internal :=
              { d1.internal with dst_addr := d1.dst_addr &&& g_dma_dst_mask.getD current 0 } }
        else d1
      let c := sys.dmac.setDma current d2
      if d2.time ≠ DMA_IMMEDIATE then
        { c with run_set := c.run_set &&& bitNot32 (1 <<< current) }
      else c
    else
      let c := sys.dmac.setDma current { dma with enable := false }
      { c with run_set := c.run_set &&& bitNot32 (1 <<< current) }
  let c2 : DMAController :=
    if c1.run_set > 0 then { c1 with current := g_dma_from_bitset.getD c1.run_set (-1) }
    else c1
  { sys with dmac := c2, irq_if := irq_if }

/-- `DMAController::Run` (dma.cpp lines 218-300). -/
def Run {M : Type} (cpu : CPU M) (sys : System M) : System M :=
  let dst_cntl := (sys.dmac.dma sys.dmac.current.toNat).dst_cntl
  let b := RunBurst cpu sys
  if b.completed then RunCompletion cpu (storeBurst sys b) dst_cntl
  else storeBurst sys b

/-! ## Definitions that follow the specification -/

/-- The index of the lowest set bit of a 4-bit set, and `-1` ("none") for the empty
set, as the specification words priority resolution. -/
def lowestSetBit (s : Nat) : Int :=
  match (List.range 4).find? (fun i => s.testBit i) with
  | some i => (i : Int)
  | none => -1

/-- The step table as the specification words it: half-word size gives
Increment +2, Decrement -2, Fixed 0, IncrementReload +2; word size gives +4, -4, 0, +4. -/
def specStep (size cntl : Nat) : Int :=
  if size = DMA_HWORD then
    (if cntl = DMA_INCREMENT then 2 else if cntl = DMA_DECREMENT then -2
     else if cntl = DMA_FIXED then 0 else 2)
  else
    (if cntl = DMA_INCREMENT then 4 else if cntl = DMA_DECREMENT then -4
     else if cntl = DMA_FIXED then 0 else 4)

/-- The address `(A + k * step) mod 2^32` of the `k`-th unit of a burst that started
at `A`. -/
def unitAddr (A : Nat) (step : Int) (k : Nat) : Nat :=
  (((A : Int) + (k : Int) * step) % 4294967296).toNat

/-- The collaborator state after the first `k` units of a burst of unit size `size`
from `S` to `D` with address controls `a` (source) and `b` (destination), as the
specification words a unit transfer: unit `k` is one read on the bus at
`unitAddr S _ k`, a word read (`cpu->ReadWord`) for word size and a half-word read
(`cpu->ReadHalf`) for half-word size, followed by one write of the value just read at
`unitAddr D _ k`, a word write (`cpu->WriteWord`) or a half-word write
(`cpu->WriteHalf`). -/
def extAfter {M : Type} (cpu : CPU M) (size a b S D : Nat) (m : M) : Nat → M
  | 0 => m
  | k + 1 =>
    if size = DMA_WORD then
      cpu.WriteWord
        (cpu.ReadWord (extAfter cpu size a b S D m k) (unitAddr S (specStep size a) k)).2
        (unitAddr D (specStep size b) k)
        (cpu.ReadWord (extAfter cpu size a b S D m k) (unitAddr S (specStep size a) k)).1
    else
      cpu.WriteHalf
        (cpu.ReadHalf (extAfter cpu size a b S D m k) (unitAddr S (specStep size a) k)).2
        (unitAddr D (specStep size b) k)
        (cpu.ReadHalf (extAfter cpu size a b S D m k) (unitAddr S (specStep size a) k)).1

/-- The value unit `k` of such a burst reads from the bus (and then writes). -/
def unitValue {M : Type} (cpu : CPU M) (size a b S D : Nat) (m : M) (k : Nat) : Nat :=
  if size = DMA_WORD then
    (cpu.ReadWord (extAfter cpu size a b S D m k) (unitAddr S (specStep size a) k)).1
  else
    (cpu.ReadHalf (extAfter cpu size a b S D m k) (unitAddr S (specStep size a) k)).1

/-- The two bus accesses of unit `k` of such a burst. -/
def unitOps {M : Type} (cpu : CPU M) (size a b S D : Nat) (m : M) (k : Nat) : List BusOp :=
  [BusOp.read size (unitAddr S (specStep size a) k),
   BusOp.write size (unitAddr D (specStep size b) k) (unitValue cpu size a b S D m k)]

/-- The bus accesses of the first `n` units of such a burst, in order. -/
def burstOps {M : Type} (cpu : CPU M) (size a b S D : Nat) (m : M) : Nat → List BusOp
  | 0 => []
  | n + 1 => burstOps cpu size a b S D m n ++ unitOps cpu size a b S D m n

/-! ## A concrete collaborator for the examples -/

/-- A small collaborator: its state is the remaining budget; every read returns the
address read and costs one cycle, every write costs one cycle. -/
def demoCPU : CPU Int :=
  { run_until := fun m => m,
    ReadWord := fun m addr => (addr, m - 1),
    WriteWord := fun m _ _ => m - 1,
    ReadHalf := fun m addr => (addr % 65536, m - 1),
    WriteHalf := fun m _ _ => m - 1,
    INT_DMA0 := 256 }

/-- The reset controller beside `demoCPU` with the budget `budget`. -/
def demoSystem (budget : Int) : System Int :=
  { dmac := Reset, ext := budget, irq_if := 0, bus := [] }

/-- Channel 0 after reset with the visible source address 0xFFFFFFFF written and the
visible length left at 0. -/
def armingExample : DMAController :=
  Write (Write (Write (Write Reset 0 0 0xFF) 0 1 0xFF) 0 2 0xFF) 0 3 0xFF

/-- Channel 0 armed (Immediate timing, half-word size, latched length 16384) beside
`demoCPU` with the budget exhausted. -/
def budgetExample : System Int :=
  { demoSystem 0 with dmac := Write Reset 0 11 0x80 }

/-- Channel 2 armed from reset (Immediate timing), so that it is running:
`run_set = 0b0100`, `current = 2`, latched length 16384; budget 100. -/
def preemptionExample : System Int :=
  { demoSystem 100 with dmac := Write Reset 2 11 0x80 }

/-- Channel 0 armed from reset with visible length 1, repeat off, Immediate timing;
budget 100. -/
def completionExample : System Int :=
  { demoSystem 100 with dmac := Write (Write Reset 0 8 1) 0 11 0x80 }

/-- One call of the collaborator's bus interface: which of the four functions was
called, at which address and, for a write, with which value. -/
inductive BusCall where
  | ReadWord (addr : Nat)
  | WriteWord (addr : Nat) (word : Nat)
  | ReadHalf (addr : Nat)
  | WriteHalf (addr : Nat) (word : Nat)
deriving DecidableEq, Repr

/-- A collaborator that records every call of its bus interface, oldest first: its state
is the list of calls made.  A word read at `addr` returns `addr + 1`, a half-word read
returns `(addr + 1) % 65536`; the budget is never exhausted. -/
def recordingCPU : CPU (List BusCall) :=
  { run_until := fun _ => 1,
    ReadWord := fun m addr => (addr + 1, m ++ [BusCall.ReadWord addr]),
    WriteWord := fun m addr word => m ++ [BusCall.WriteWord addr word],
    ReadHalf := fun m addr => ((addr + 1) % 65536, m ++ [BusCall.ReadHalf addr]),
    WriteHalf := fun m addr word => m ++ [BusCall.WriteHalf addr word],
    INT_DMA0 := 256 }

/-- The end-to-end scenario of the specification beside `recordingCPU`, no call made
yet: channel 3, Immediate timing, word size, source 0x08000000, destination 0x02000000,
length 4. -/
def endToEndExample : System (List BusCall) :=
  { dmac := Write (Write (Write (Write Reset 3 3 0x08) 3 7 0x02) 3 8 4) 3 11 0x84,
    ext := [], irq_if := 0, bus := [] }

/-- A half-word burst beside `recordingCPU`: channel 0, Immediate timing, half-word
size, source control Decrement, destination control Fixed, source 0x03000004,
destination 0x04000000, length 3. -/
def halfWordExample : System (List BusCall) :=
  { dmac := Write (Write (Write (Write (Write (Write Reset 0 0 0x04) 0 3 0x03) 0 7 0x04) 0 8 3)
      0 10 0xC0) 0 11 0x80,
    ext := [], irq_if := 0, bus := [] }

/-- Channel 1 armed from reset with repeat on, destination control IncrementReload,
destination 0x06000000, length 2, half-word size, Immediate timing; budget 100. -/
def repeatExample : System Int :=
  { demoSystem 100 with
    dmac := Write (Write (Write (Write Reset 1 7 0x06) 1 10 0x60) 1 8 2) 1 11 0x82 }


/-- Channel 2 armed from reset with visible length 1, the interrupt flag set, repeat
off, Immediate timing; budget 100 and an empty interrupt flag register. -/
def interruptExample : System Int :=
  { demoSystem 100 with dmac := Write (Write Reset 2 8 1) 2 11 0xC0 }

/-- Byte lane `k` of a register value: its bits `8k` to `8k + 7`. -/
def byteLane (r k : Nat) : Nat := (r >>> (8 * k)) % 256

/-- The update `(r & ~(0xFF << s)) | (v << s)` of a `w`-bit register: the common form of
the cases 0 to 9 of `Write`, whose masks are the constants `~(0xFF << s)`. -/
def setLane (w s v r : Nat) : Nat := ((r &&& ((2 ^ w - 1) ^^^ (255 <<< s))) ||| (v <<< s)) % 2 ^ w

/-- The bytes 0x78, 0x56, 0x34, 0x12 for the offsets 0, 1, 2, 3 (the little-endian bytes
of 0x12345678). -/
def exampleBytes (k : Nat) : Nat := [0x78, 0x56, 0x34, 0x12].getD k 0

/-- The states of the whole system reachable from `Reset` by calls of the operations of
the controller: `Write` with a channel id in 0..3 and a byte value, the two triggers and
`Run`.  Between two calls the environment may change the collaborator's state and the
interrupt flag register at will (`env`: the budget is refilled, memory changes,
interrupts are acknowledged).  With `guarded = true`, `Run` is only called while
`run_set` is non-empty; with `guarded = false` it may be called at any time. -/
inductive Reachable {M : Type} (cpu : CPU M) (guarded : Bool) : System M → Prop where
  | reset (m : M) (irq_if : Nat) :
      Reachable cpu guarded { dmac := Reset, ext := m, irq_if := irq_if, bus := [] }
  | write {sys : System M} (id offset value : Nat) (hid : id < 4) (hv : value < 256) :
      Reachable cpu guarded sys →
      Reachable cpu guarded { sys with dmac := Write sys.dmac id offset value }
  | hblank {sys : System M} :
      Reachable cpu guarded sys →
      Reachable cpu guarded { sys with dmac := TriggerHBlankDMA sys.dmac }
  | vblank {sys : System M} :
      Reachable cpu guarded sys →
      Reachable cpu guarded { sys with dmac := TriggerVBlankDMA sys.dmac }
  | run {sys : System M} :
      Reachable cpu guarded sys → (guarded = true → sys.dmac.run_set ≠ 0) →
      Reachable cpu guarded (Run cpu sys)
  | env {sys : System M} (m : M) (irq_if : Nat) :
      Reachable cpu guarded sys →
      Reachable cpu guarded { sys with ext := m, irq_if := irq_if }

/-- The scheduling invariant: `run_set` is a 4-bit set and, while it is non-empty,
`current` is the entry of `g_dma_from_bitset` for it. -/
def SchedInv (s : DMAController) : Prop :=
  s.run_set < 16 ∧ (s.run_set ≠ 0 → s.current = g_dma_from_bitset.getD s.run_set (-1))

/-- The invariant of the trigger sets: both are 4-bit sets, and bit `i` of `hblank_set`
(of `vblank_set`) is set exactly when channel `i` has HBlank (VBlank) timing. -/
def BlankInv (s : DMAController) : Prop :=
  s.hblank_set < 16 ∧ s.vblank_set < 16 ∧
  ∀ i, i < 4 →
    s.hblank_set.testBit i = decide ((s.dma i).time = DMA_HBLANK) ∧
    s.vblank_set.testBit i = decide ((s.dma i).time = DMA_VBLANK)

/-- The invariant of the latched lengths: every channel in `run_set` has a latched
length between 1 and `g_dma_len_mask[i] + 1`. -/
def WorkInv (s : DMAController) : Prop :=
  ∀ i, i < 4 → s.run_set.testBit i = true →
    1 ≤ (s.dma i).internal.length ∧
    (s.dma i).internal.length ≤ g_dma_len_mask.getD i 0 + 1

/-- Channel 1 armed from reset with HBlank timing (value 0xA0); budget 100. -/
def hblankExample : System Int :=
  { demoSystem 100 with dmac := Write Reset 1 11 0xA0 }

/-- Channel 2 running and channel 0 armed after it, both with Immediate timing:
`run_set = 0b0101` and `current = 0`; budget 100. -/
def priorityExample : System Int :=
  { preemptionExample with dmac := Write preemptionExample.dmac 0 11 0x80 }

/-! # Theorems -/

/-! ## Array access lemmas -/

theorem dma_setDma_same (s : DMAController) (id : Nat) (d : DMA) (h : id < 4) :
    (s.setDma id d).dma id = d := by
  interval_cases id <;> rfl

theorem dma_setDma_other (s : DMAController) (id j : Nat) (d : DMA) (h : id ≠ j) :
    (s.setDma id d).dma j = s.dma j := by
  unfold DMAController.setDma
  split <;> first
    | rfl
    | (unfold DMAController.dma; split <;> first | rfl | (exfalso; exact h rfl))

@[simp] theorem setDma_hblank_set (s : DMAController) (id : Nat) (d : DMA) :
    (s.setDma id d).hblank_set = s.hblank_set := by
  unfold DMAController.setDma; split <;> rfl

@[simp] theorem setDma_vblank_set (s : DMAController) (id : Nat) (d : DMA) :
    (s.setDma id d).vblank_set = s.vblank_set := by
  unfold DMAController.setDma; split <;> rfl

@[simp] theorem setDma_run_set (s : DMAController) (id : Nat) (d : DMA) :
    (s.setDma id d).run_set = s.run_set := by
  unfold DMAController.setDma; split <;> rfl

@[simp] theorem setDma_current (s : DMAController) (id : Nat) (d : DMA) :
    (s.setDma id d).current = s.current := by
  unfold DMAController.setDma; split <;> rfl

@[simp] theorem setDma_interleaved (s : DMAController) (id : Nat) (d : DMA) :
    (s.setDma id d).interleaved = s.interleaved := by
  unfold DMAController.setDma; split <;> rfl

theorem setDma_dma_self (s : DMAController) (id : Nat) : s.setDma id (s.dma id) = s := by
  unfold DMAController.setDma DMAController.dma
  split <;> rfl

@[simp] theorem updateBlankSets_dma (s : DMAController) (id t j : Nat) :
    (updateBlankSets s id t).dma j = s.dma j := by
  unfold updateBlankSets
  split_ifs <;> rfl

@[simp] theorem updateBlankSets_run_set (s : DMAController) (id t : Nat) :
    (updateBlankSets s id t).run_set = s.run_set := by
  unfold updateBlankSets
  split_ifs <;> rfl

@[simp] theorem updateBlankSets_current (s : DMAController) (id t : Nat) :
    (updateBlankSets s id t).current = s.current := by
  unfold updateBlankSets
  split_ifs <;> rfl

@[simp] theorem updateBlankSets_interleaved (s : DMAController) (id t : Nat) :
    (updateBlankSets s id t).interleaved = s.interleaved := by
  unfold updateBlankSets
  split_ifs <;> rfl

@[simp] theorem MarkDMAForExecution_dma (s : DMAController) (id j : Nat) :
    (MarkDMAForExecution s id).dma j = s.dma j := by
  unfold MarkDMAForExecution
  split_ifs <;> rfl

/-- The channel record after a write to offset 11. -/
theorem Write11_dma_same (s : DMAController) (id v : Nat) (hid : id < 4) :
    (Write11 s id v).dma id =
      { (s.dma id) with
        src_cntl := ((s.dma id).src_cntl &&& 1) ||| ((v &&& 1) <<< 1),
        size := (v >>> 2) &&& 1,
        time := (v >>> 4) &&& 3,
        repeat_ := (v &&& 2) != 0,
        gamepak := (v &&& 8) != 0,
        interrupt := (v &&& 64) != 0,
        enable := (v &&& 128) != 0,
        internal :=
          if !(s.dma id).enable && ((v &&& 128) != 0) then
            { dst_addr := (s.dma id).dst_addr &&& g_dma_dst_mask.getD id 0,
              src_addr := (s.dma id).src_addr &&& g_dma_src_mask.getD id 0,
              length := latchLength (s.dma id).length id }
          else (s.dma id).internal } := by
  unfold Write11
  by_cases h : (!(s.dma id).enable && ((v &&& 128) != 0)) = true
  · simp only [h, if_true]
    split_ifs <;> simp [dma_setDma_same _ _ _ hid]
  · simp only [h, if_false]
    simp [dma_setDma_same _ _ _ hid]

/-! ## Bit-level facts about bytes -/

theorem and_two_cases (x : Nat) : x &&& 2 = 0 ∨ x &&& 2 = 2 := by
  have h := Nat.and_two_pow x 1
  simp only [pow_one] at h
  cases hb : x.testBit 1 <;> simp [hb] at h <;> omega

theorem and_one_lt_two (x : Nat) : x &&& 1 < 2 := by
  have h : x &&& 1 ≤ 1 := Nat.and_le_right
  omega

set_option maxRecDepth 100000 in
theorem byte11_assemble : ∀ b < 256,
    ((b &&& 1) ||| (((b >>> 2) &&& 1) <<< 2) ||| (((b >>> 4) &&& 3) <<< 4) |||
      (if ((b &&& 2) != 0) = true then 2 else 0) ||| (if ((b &&& 8) != 0) = true then 8 else 0) |||
      (if ((b &&& 64) != 0) = true then 64 else 0) |||
      (if ((b &&& 128) != 0) = true then 128 else 0)) % 256 = b := by
  decide

set_option maxRecDepth 100000 in
theorem byte10_assemble : ∀ a < 256, ∀ h < 2,
    ((((a >>> 5) &&& 3) <<< 5) ||| (((h <<< 1) ||| (a >>> 7)) <<< 7)) % 256 = a &&& 0xE0 := by
  decide

set_option maxRecDepth 100000 in
theorem shr7_lt_two : ∀ a < 256, a >>> 7 < 2 := by
  decide

/-- Writing the low bit of `src_cntl` and then the high bit. -/
theorem src_cntl_low_then_high (x t h : Nat) (ht : t < 2) (hh : h < 2) :
    (((x &&& 2) ||| t) &&& 1) ||| (h <<< 1) = (h <<< 1) ||| t := by
  rcases and_two_cases x with hx | hx <;> rw [hx] <;>
    interval_cases t <;> interval_cases h <;> rfl

/-- Writing the high bit of `src_cntl` and then the low bit. -/
theorem src_cntl_high_then_low (x t h : Nat) (ht : t < 2) (hh : h < 2) :
    (((x &&& 1) ||| (h <<< 1)) &&& 2) ||| t = (h <<< 1) ||| t := by
  have hx := and_one_lt_two x
  generalize x &&& 1 = p at hx
  interval_cases p <;> interval_cases t <;> interval_cases h <;> rfl

theorem src_cntl_high_bit (t h : Nat) (ht : t < 2) (hh : h < 2) :
    ((h <<< 1) ||| t) >>> 1 = h := by
  interval_cases t <;> interval_cases h <;> rfl

/-! ## C1 -/

theorem Write10_dma_same (s : DMAController) (id v : Nat) (hid : id < 4) :
    (Write s id 10 v).dma id =
      { (s.dma id) with
        dst_cntl := (v >>> 5) &&& 3,
        src_cntl := ((s.dma id).src_cntl &&& 2) ||| (v >>> 7) } := by
  simp [Write, dma_setDma_same _ _ _ hid]

theorem Write_eleven (s : DMAController) (id v : Nat) : Write s id 11 v = Write11 s id v := rfl

/-- C1: for a channel id in 0..3, any prior state and bytes a, b, after Write(id,10,a)
and Write(id,11,b) in either order, Read(id,11) returns b and Read(id,10) returns
a & 0xE0. -/
theorem control_word_round_trip (s : DMAController) (id a b : Nat)
    (hid : id < 4) (ha : a < 256) (hb : b < 256) :
    Read (Write (Write s id 10 a) id 11 b) id 11 = b ∧
    Read (Write (Write s id 10 a) id 11 b) id 10 = a &&& 0xE0 ∧
    Read (Write (Write s id 11 b) id 10 a) id 11 = b ∧
    Read (Write (Write s id 11 b) id 10 a) id 10 = a &&& 0xE0 := by
  have ht := shr7_lt_two a ha
  have hh := and_one_lt_two b
  refine ⟨?_, ?_, ?_, ?_⟩
  · simp only [Read, Write_eleven, Write11_dma_same _ _ _ hid, Write10_dma_same _ _ _ hid,
      src_cntl_low_then_high _ _ _ ht hh, src_cntl_high_bit _ _ ht hh]
    exact byte11_assemble b hb
  · simp only [Read, Write_eleven, Write11_dma_same _ _ _ hid, Write10_dma_same _ _ _ hid,
      src_cntl_low_then_high _ _ _ ht hh]
    exact byte10_assemble a ha _ hh
  · simp only [Read, Write_eleven, Write11_dma_same _ _ _ hid, Write10_dma_same _ _ _ hid,
      src_cntl_high_then_low _ _ _ ht hh, src_cntl_high_bit _ _ ht hh]
    exact byte11_assemble b hb
  · simp only [Read, Write_eleven, Write11_dma_same _ _ _ hid, Write10_dma_same _ _ _ hid,
      src_cntl_high_then_low _ _ _ ht hh]
    exact byte10_assemble a ha _ hh

/-- The round trip on channel 2 from the reset state with a = 0xFF and b = 0xB7. -/
theorem control_word_round_trip_witness :
    (2 < 4 ∧ 0xFF < 256 ∧ 0xB7 < 256) ∧
    Read (Write (Write Reset 2 10 0xFF) 2 11 0xB7) 2 11 = 0xB7 ∧
    Read (Write (Write Reset 2 10 0xFF) 2 11 0xB7) 2 10 = 0xFF &&& 0xE0 ∧
    Read (Write (Write Reset 2 11 0xB7) 2 10 0xFF) 2 11 = 0xB7 ∧
    Read (Write (Write Reset 2 11 0xB7) 2 10 0xFF) 2 10 = 0xFF &&& 0xE0 :=
  ⟨by decide, control_word_round_trip Reset 2 0xFF 0xB7 (by decide) (by decide) (by decide)⟩

/-! ## C2 -/

theorem bit7_set (v : Nat) (h : v.testBit 7 = true) : ((v &&& 128) != 0) = true := by
  have e := Nat.and_two_pow v 7
  rw [h] at e
  have e2 : v &&& 128 = 128 := by simpa using e
  rw [e2]
  rfl

theorem bit7_clear (v : Nat) (h : v.testBit 7 = false) : ((v &&& 128) != 0) = false := by
  have e := Nat.and_two_pow v 7
  rw [h] at e
  have e2 : v &&& 128 = 0 := by simpa using e
  rw [e2]
  rfl

/-- C2: for a channel id in 0..3 whose enable is false, Write(id,11,v) with bit 7 of v
set latches internal.src_addr = src_addr & src_mask[id], internal.dst_addr =
dst_addr & dst_mask[id] and internal.length = length & len_mask[id], or
len_mask[id] + 1 (16384 for channels 0-2, 65536 for channel 3) when that is zero,
with the mask tables of the claim; the visible src_addr, dst_addr and length are
left as they were. -/
theorem arming_latch (s : DMAController) (id v : Nat)
    (hid : id < 4) (hen : (s.dma id).enable = false) (hv : v.testBit 7 = true) :
    ((Write s id 11 v).dma id).internal.src_addr
        = (s.dma id).src_addr &&& g_dma_src_mask.getD id 0 ∧
    ((Write s id 11 v).dma id).internal.dst_addr
        = (s.dma id).dst_addr &&& g_dma_dst_mask.getD id 0 ∧
    ((Write s id 11 v).dma id).internal.length
        = (if (s.dma id).length &&& g_dma_len_mask.getD id 0 ≠ 0
           then (s.dma id).length &&& g_dma_len_mask.getD id 0
           else g_dma_len_mask.getD id 0 + 1) ∧
    ((Write s id 11 v).dma id).src_addr = (s.dma id).src_addr ∧
    ((Write s id 11 v).dma id).dst_addr = (s.dma id).dst_addr ∧
    ((Write s id 11 v).dma id).length = (s.dma id).length ∧
    g_dma_dst_mask = [0x07FFFFFF, 0x07FFFFFF, 0x07FFFFFF, 0x0FFFFFFF] ∧
    g_dma_src_mask = [0x07FFFFFF, 0x0FFFFFFF, 0x0FFFFFFF, 0x0FFFFFFF] ∧
    g_dma_len_mask = [0x3FFF, 0x3FFF, 0x3FFF, 0xFFFF] ∧
    g_dma_len_mask.getD id 0 + 1 = (if id = 3 then 65536 else 16384) := by
  have hb := bit7_set v hv
  refine ⟨?_, ?_, ?_, ?_, ?_, ?_, rfl, rfl, rfl, ?_⟩
  · simp [Write_eleven, Write11_dma_same _ _ _ hid, hen, hb]
  · simp [Write_eleven, Write11_dma_same _ _ _ hid, hen, hb]
  · simp only [Write_eleven, Write11_dma_same _ _ _ hid, hen, hb, latchLength]
    by_cases h0 : (s.dma id).length &&& g_dma_len_mask.getD id 0 = 0 <;> simp [h0]
  · simp [Write_eleven, Write11_dma_same _ _ _ hid]
  · simp [Write_eleven, Write11_dma_same _ _ _ hid]
  · simp [Write_eleven, Write11_dma_same _ _ _ hid]
  · interval_cases id <;> rfl

/-- The instance of the specification: channel 0 with visible source 0xFFFFFFFF and visible
length 0 latches 0x07FFFFFF and 16384, and the visible source stays 0xFFFFFFFF. -/
theorem arming_latch_witness :
    (armingExample.dma 0).src_addr = 0xFFFFFFFF ∧ (armingExample.dma 0).length = 0 ∧
    (armingExample.dma 0).enable = false ∧ (0x80).testBit 7 = true ∧
    ((Write armingExample 0 11 0x80).dma 0).internal.src_addr = 0x07FFFFFF ∧
    ((Write armingExample 0 11 0x80).dma 0).internal.length = 16384 ∧
    ((Write armingExample 0 11 0x80).dma 0).src_addr = 0xFFFFFFFF := by
  have h := arming_latch armingExample 0 0x80 (by decide) (by decide) (by decide)
  refine ⟨by decide, by decide, by decide, by decide, ?_, ?_, ?_⟩
  · rw [h.1]; decide
  · rw [h.2.2.1]; decide
  · rw [h.2.2.2.1]; decide

/-! ## C3 -/

/-- C3: for every 4-bit set s the table g_dma_from_bitset gives the index of the
lowest set bit of s, and -1 for the empty set: it agrees with the lowest-set-bit
computation, gives -1 exactly at 0, and otherwise an index i in 0..3 whose bit is
set in s while no lower bit is. -/
theorem priority_lookup (s : Nat) (hs : s < 16) :
    g_dma_from_bitset.getD s (-1) = lowestSetBit s ∧
    (s = 0 → g_dma_from_bitset.getD s (-1) = -1) ∧
    (s ≠ 0 → ∃ i : Nat, i < 4 ∧ g_dma_from_bitset.getD s (-1) = (i : Int) ∧
      s.testBit i = true ∧ ∀ j : Nat, j < i → s.testBit j = false) := by
  revert s
  decide

/-- The instance of the specification: the set 0b1010 resolves to channel 1. -/
theorem priority_lookup_witness :
    0b1010 < 16 ∧ g_dma_from_bitset.getD 0b1010 (-1) = 1 ∧ lowestSetBit 0b1010 = 1 :=
  ⟨by decide, (priority_lookup 0b1010 (by decide)).1.trans (by decide), by decide⟩

/-! ## C9 -/

theorem src_cntl_shift (x h : Nat) (hh : h < 2) : ((x &&& 1) ||| (h <<< 1)) >>> 1 = h := by
  have hx := and_one_lt_two x
  generalize x &&& 1 = p at hx
  interval_cases p <;> interval_cases h <;> rfl

/-- Reading offset 11 after writing it returns the byte written. -/
theorem Read_Write11 (s : DMAController) (id v : Nat) (hid : id < 4) (hv : v < 256) :
    Read (Write s id 11 v) id 11 = v := by
  simp only [Read, Write_eleven, Write11_dma_same _ _ _ hid,
    src_cntl_shift _ _ (and_one_lt_two v)]
  exact byte11_assemble v hv

/-- C9, as the claim states it, fails: after Write(0,11,0x08) from the reset state the
timing code of channel 0 is 0 (Immediate), while bits[4:3] of 0x08 are 1. -/
theorem timing_field_counterexample :
    ((Write Reset 0 11 0x08).dma 0).time = DMA_IMMEDIATE ∧
    ((Write Reset 0 11 0x08).dma 0).time ≠ (0x08 >>> 3) &&& 3 := by
  decide

/-- C9, amended: for every state, channel id in 0..3 and value v, after Write(id,11,v)
the channel's timing code is the 2-bit field at bits[5:4] of v, (v >> 4) & 3, with the
codes Immediate = 0, VBlank = 1, HBlank = 2, Special = 3; Read(id,11) returns the code
at the same two bits. -/
theorem timing_field (s : DMAController) (id v : Nat) (hid : id < 4) (hv : v < 256) :
    ((Write s id 11 v).dma id).time = (v >>> 4) &&& 3 ∧
    (Read (Write s id 11 v) id 11 >>> 4) &&& 3 = ((Write s id 11 v).dma id).time ∧
    DMA_IMMEDIATE = 0 ∧ DMA_VBLANK = 1 ∧ DMA_HBLANK = 2 ∧ DMA_SPECIAL = 3 := by
  refine ⟨?_, ?_, rfl, rfl, rfl, rfl⟩
  · simp [Write_eleven, Write11_dma_same _ _ _ hid]
  · rw [Read_Write11 s id v hid hv]
    simp [Write_eleven, Write11_dma_same _ _ _ hid]

/-- The amended statement at the input of the counterexample. -/
theorem timing_field_witness :
    (0 < 4 ∧ 0x08 < 256) ∧ ((Write Reset 0 11 0x08).dma 0).time = (0x08 >>> 4) &&& 3 :=
  ⟨by decide, (timing_field Reset 0 0x08 (by decide) (by decide)).1⟩

/-! ## C10 -/

/-- C10 at the failing input: from the reset state, arming channel 1 with HBlank timing
(value 0xA0) and calling TriggerHBlankDMA leaves run_set empty and current at 0, and
the same holds for VBlank timing (value 0x90) with TriggerVBlankDMA, although the
channel is enabled, has the timing and is in the set of its trigger. -/
theorem trigger_never_schedules :
    ((Write Reset 1 11 0xA0).dma 1).enable = true ∧
    ((Write Reset 1 11 0xA0).dma 1).time = DMA_HBLANK ∧
    (Write Reset 1 11 0xA0).hblank_set = 0b0010 ∧
    (TriggerHBlankDMA (Write Reset 1 11 0xA0)).run_set = 0 ∧
    (TriggerHBlankDMA (Write Reset 1 11 0xA0)).current = 0 ∧
    ((Write Reset 1 11 0x90).dma 1).enable = true ∧
    ((Write Reset 1 11 0x90).dma 1).time = DMA_VBLANK ∧
    (Write Reset 1 11 0x90).vblank_set = 0b0010 ∧
    (TriggerVBlankDMA (Write Reset 1 11 0x90)).run_set = 0 ∧
    (TriggerVBlankDMA (Write Reset 1 11 0x90)).current = 0 := by
  decide

/-! ## The transfer loop -/

theorem latchLength_ne_zero (length id : Nat) : latchLength length id ≠ 0 := by
  unfold latchLength
  simp only
  split_ifs with h
  · omega
  · exact h

/-- With the budget exhausted the loop returns at once, whatever the length left. -/
theorem transferLoop_budget {M : Type} (cpu : CPU M) (size : Nat) (sm dm : Int)
    (n S D : Nat) (il : Bool) (m : M) (bus : List BusOp)
    (hn : n ≠ 0) (hb : cpu.run_until m ≤ 0) :
    transferLoop cpu size sm dm n S D il m bus =
      { completed := false, length := n, src_addr := S, dst_addr := D,
        interleaved := il, ext := m, bus := bus } := by
  cases n with
  | zero => exact absurd rfl hn
  | succ k => simp [transferLoop, hb]

/-- With budget left and `interleaved` set the loop clears the flag and returns. -/
theorem transferLoop_interleaved {M : Type} (cpu : CPU M) (size : Nat) (sm dm : Int)
    (n S D : Nat) (m : M) (bus : List BusOp)
    (hn : n ≠ 0) (hb : 0 < cpu.run_until m) :
    transferLoop cpu size sm dm n S D true m bus =
      { completed := false, length := n, src_addr := S, dst_addr := D,
        interleaved := false, ext := m, bus := bus } := by
  cases n with
  | zero => exact absurd rfl hn
  | succ k => simp [transferLoop, not_le.mpr hb]

/-! ## C5 -/

theorem storeBurst_unchanged {M : Type} (sys : System M) :
    storeBurst sys
      { completed := false,
        length := (sys.dmac.dma sys.dmac.current.toNat).internal.length,
        src_addr := (sys.dmac.dma sys.dmac.current.toNat).internal.src_addr,
        dst_addr := (sys.dmac.dma sys.dmac.current.toNat).internal.dst_addr,
        interleaved := sys.dmac.interleaved, ext := sys.ext, bus := sys.bus } = sys := by
  unfold storeBurst
  simp only
  have h : ({ (sys.dmac.dma sys.dmac.current.toNat) with
      internal := { length := (sys.dmac.dma sys.dmac.current.toNat).internal.length,
                    dst_addr := (sys.dmac.dma sys.dmac.current.toNat).internal.dst_addr,
                    src_addr := (sys.dmac.dma sys.dmac.current.toNat).internal.src_addr } } : DMA)
      = sys.dmac.dma sys.dmac.current.toNat := rfl
  rw [h, setDma_dma_self]

/-- C5: in every state whose current channel (of word or half-word size) has
internal.length != 0, a Run call with the budget exhausted (run_until <= 0) leaves the
whole system as it was: no bus access is made, and the controller (every channel's
internal and visible fields, run_set, current, interleaved, enable), the collaborator
state and the interrupt flag register are unchanged. -/
theorem exhausted_budget_run {M : Type} (cpu : CPU M) (sys : System M)
    (hsize : (sys.dmac.dma sys.dmac.current.toNat).size = DMA_WORD ∨
             (sys.dmac.dma sys.dmac.current.toNat).size = DMA_HWORD)
    (hlen : (sys.dmac.dma sys.dmac.current.toNat).internal.length ≠ 0)
    (hbudget : cpu.run_until sys.ext ≤ 0) :
    Run cpu sys = sys ∧ (Run cpu sys).bus = sys.bus ∧ (Run cpu sys).irq_if = sys.irq_if ∧
    (Run cpu sys).dmac = sys.dmac := by
  have hb : RunBurst cpu sys =
      { completed := false,
        length := (sys.dmac.dma sys.dmac.current.toNat).internal.length,
        src_addr := (sys.dmac.dma sys.dmac.current.toNat).internal.src_addr,
        dst_addr := (sys.dmac.dma sys.dmac.current.toNat).internal.dst_addr,
        interleaved := sys.dmac.interleaved, ext := sys.ext, bus := sys.bus } := by
    unfold RunBurst
    simp only [hsize, if_true]
    exact transferLoop_budget cpu _ _ _ _ _ _ _ _ _ hlen hbudget
  have hrun : Run cpu sys = sys := by
    unfold Run
    simp only [hb]
    exact storeBurst_unchanged sys
  rw [hrun]
  exact ⟨rfl, rfl, rfl, rfl⟩

/-- An armed channel 0 with the budget at 0: Run changes nothing. -/
theorem exhausted_budget_run_witness :
    ((budgetExample.dmac.dma budgetExample.dmac.current.toNat).size = DMA_WORD ∨
      (budgetExample.dmac.dma budgetExample.dmac.current.toNat).size = DMA_HWORD) ∧
    (budgetExample.dmac.dma budgetExample.dmac.current.toNat).internal.length ≠ 0 ∧
    demoCPU.run_until budgetExample.ext ≤ 0 ∧
    Run demoCPU budgetExample = budgetExample :=
  ⟨by decide, by decide, by decide,
    (exhausted_budget_run demoCPU budgetExample (by decide) (by decide) (by decide)).1⟩

/-! ## C4 -/

theorem dma_with_interleaved (s : DMAController) (b : Bool) (j : Nat) :
    ({ s with interleaved := b } : DMAController).dma j = s.dma j := rfl

theorem dma_with_run_set (s : DMAController) (r : Nat) (j : Nat) :
    ({ s with run_set := r } : DMAController).dma j = s.dma j := rfl

theorem dma_with_current (s : DMAController) (c : Int) (j : Nat) :
    ({ s with current := c } : DMAController).dma j = s.dma j := rfl

@[simp] theorem storeBurst_current {M : Type} (sys : System M) (b : Burst M) :
    (storeBurst sys b).dmac.current = sys.dmac.current := by
  simp [storeBurst]

@[simp] theorem storeBurst_run_set {M : Type} (sys : System M) (b : Burst M) :
    (storeBurst sys b).dmac.run_set = sys.dmac.run_set := by
  simp [storeBurst]

@[simp] theorem storeBurst_interleaved {M : Type} (sys : System M) (b : Burst M) :
    (storeBurst sys b).dmac.interleaved = b.interleaved := rfl

@[simp] theorem storeBurst_irq_if {M : Type} (sys : System M) (b : Burst M) :
    (storeBurst sys b).irq_if = sys.irq_if := rfl

@[simp] theorem storeBurst_bus {M : Type} (sys : System M) (b : Burst M) :
    (storeBurst sys b).bus = b.bus := rfl

@[simp] theorem storeBurst_ext {M : Type} (sys : System M) (b : Burst M) :
    (storeBurst sys b).ext = b.ext := rfl

theorem storeBurst_dma_other {M : Type} (sys : System M) (b : Burst M) (j : Nat)
    (h : sys.dmac.current.toNat ≠ j) : (storeBurst sys b).dmac.dma j = sys.dmac.dma j := by
  unfold storeBurst
  simp only [dma_with_interleaved, dma_setDma_other _ _ _ _ h]

theorem storeBurst_dma_same {M : Type} (sys : System M) (b : Burst M)
    (h : sys.dmac.current.toNat < 4) :
    (storeBurst sys b).dmac.dma sys.dmac.current.toNat =
      { (sys.dmac.dma sys.dmac.current.toNat) with
        internal := { length := b.length, dst_addr := b.dst_addr, src_addr := b.src_addr } } := by
  unfold storeBurst
  simp only [dma_with_interleaved, dma_setDma_same _ _ _ h]

theorem Write11_dma_other (s : DMAController) (id j v : Nat) (h : id ≠ j) :
    (Write11 s id v).dma j = s.dma j := by
  unfold Write11
  simp only
  split_ifs <;> simp [dma_setDma_other _ _ _ _ h]

theorem and_one_cases (x : Nat) : x &&& 1 = 0 ∨ x &&& 1 = 1 := by
  have h := and_one_lt_two x
  omega

/-- Arming a channel (enable 0 to 1) with Immediate timing ends in
`MarkDMAForExecution`: the scheduling fields afterwards. -/
theorem Write11_armed_immediate (s : DMAController) (id v : Nat)
    (hen : (s.dma id).enable = false) (hv : v.testBit 7 = true)
    (htime : (v >>> 4) &&& 3 = DMA_IMMEDIATE) :
    (Write11 s id v).run_set = s.run_set ||| (1 <<< id) ∧
    (Write11 s id v).current =
      (if s.run_set = 0 then (id : Int) else if (id : Int) < s.current then (id : Int)
       else s.current) ∧
    (Write11 s id v).interleaved =
      (if s.run_set = 0 then s.interleaved else if (id : Int) < s.current then true
       else s.interleaved) := by
  have hb := bit7_set v hv
  unfold Write11
  simp only [hen, hb, htime, Bool.not_false, Bool.and_self, if_true]
  unfold MarkDMAForExecution
  simp only [setDma_run_set, updateBlankSets_run_set, setDma_current, updateBlankSets_current,
    setDma_interleaved, updateBlankSets_interleaved]
  split_ifs <;> simp

/-- C4: for channels lo < hi <= 3, in a state with run_set non-empty, current = hi and
channel lo not enabled, Write(lo,11,v) with bit 7 of v set and the timing field of v
Immediate sets current = lo and interleaved = true and leaves channel hi's internal
counters alone; the next Run call with a positive budget clears interleaved, makes no
bus access (the log and the collaborator state are unchanged), keeps current = lo and
leaves channel hi's internal.src_addr, internal.dst_addr and internal.length as they
were before the write. -/
theorem arming_preempts_current {M : Type} (cpu : CPU M) (sys : System M) (lo hi v : Nat)
    (hlt : lo < hi) (hhi : hi < 4)
    (hrun : sys.dmac.run_set ≠ 0) (hcur : sys.dmac.current = (hi : Int))
    (hen : (sys.dmac.dma lo).enable = false)
    (hv : v.testBit 7 = true) (htime : (v >>> 4) &&& 3 = DMA_IMMEDIATE)
    (hbudget : 0 < cpu.run_until sys.ext) :
    (Write sys.dmac lo 11 v).current = (lo : Int) ∧
    (Write sys.dmac lo 11 v).interleaved = true ∧
    ((Write sys.dmac lo 11 v).dma hi).internal = (sys.dmac.dma hi).internal ∧
    (Run cpu { sys with dmac := Write sys.dmac lo 11 v }).dmac.interleaved = false ∧
    (Run cpu { sys with dmac := Write sys.dmac lo 11 v }).bus = sys.bus ∧
    (Run cpu { sys with dmac := Write sys.dmac lo 11 v }).ext = sys.ext ∧
    (Run cpu { sys with dmac := Write sys.dmac lo 11 v }).dmac.current = (lo : Int) ∧
    ((Run cpu { sys with dmac := Write sys.dmac lo 11 v }).dmac.dma hi).internal
      = (sys.dmac.dma hi).internal := by
  have hlo : lo < 4 := by omega
  have hne : lo ≠ hi := by omega
  have hlt2 : (lo : Int) < sys.dmac.current := by rw [hcur]; exact_mod_cast hlt
  obtain ⟨-, hc, hi2⟩ := Write11_armed_immediate sys.dmac lo v hen hv htime
  rw [if_neg hrun, if_pos hlt2] at hc hi2
  have hother := Write11_dma_other sys.dmac lo hi v hne
  have hb := bit7_set v hv
  have hsame := Write11_dma_same sys.dmac lo v hlo
  have hlen : ((Write11 sys.dmac lo v).dma lo).internal.length ≠ 0 := by
    rw [hsame]
    simp only [hen, hb, Bool.not_false, Bool.and_self, if_true]
    exact latchLength_ne_zero _ _
  have hsize : ((Write11 sys.dmac lo v).dma lo).size = DMA_WORD ∨
      ((Write11 sys.dmac lo v).dma lo).size = DMA_HWORD := by
    rw [hsame]
    simp only [DMA_WORD, DMA_HWORD]
    rcases and_one_cases (v >>> 2) with h | h <;> simp [h]
  have hburst : RunBurst cpu { sys with dmac := Write sys.dmac lo 11 v } =
      { completed := false,
        length := ((Write11 sys.dmac lo v).dma lo).internal.length,
        src_addr := ((Write11 sys.dmac lo v).dma lo).internal.src_addr,
        dst_addr := ((Write11 sys.dmac lo v).dma lo).internal.dst_addr,
        interleaved := false, ext := sys.ext, bus := sys.bus } := by
    unfold RunBurst
    simp only [Write_eleven, hc, Int.toNat_ofNat, hsize, if_true, hi2]
    exact transferLoop_interleaved cpu _ _ _ _ _ _ _ _ hlen hbudget
  have hrunEq : Run cpu { sys with dmac := Write sys.dmac lo 11 v } =
      storeBurst { sys with dmac := Write sys.dmac lo 11 v }
        { completed := false,
          length := ((Write11 sys.dmac lo v).dma lo).internal.length,
          src_addr := ((Write11 sys.dmac lo v).dma lo).internal.src_addr,
          dst_addr := ((Write11 sys.dmac lo v).dma lo).internal.dst_addr,
          interleaved := false, ext := sys.ext, bus := sys.bus } := by
    unfold Run
    simp only [hburst]
    rfl
  rw [hrunEq]
  refine ⟨hc, hi2, ?_, rfl, rfl, rfl, ?_, ?_⟩
  · rw [Write_eleven, hother]
  · rw [storeBurst_current]
    exact hc
  · rw [storeBurst_dma_other]
    · exact congrArg DMA.internal hother
    · show (Write11 sys.dmac lo v).current.toNat ≠ hi
      rw [hc, Int.toNat_ofNat]
      exact hne

/-- The instance of the specification: channel 2 running, channel 0 armed with Immediate
timing. -/
theorem arming_preempts_current_witness :
    (0 < 2 ∧ 2 < 4 ∧ preemptionExample.dmac.run_set ≠ 0 ∧
      preemptionExample.dmac.current = ((2 : Nat) : Int) ∧
      (preemptionExample.dmac.dma 0).enable = false ∧ (0x80).testBit 7 = true ∧
      (0x80 >>> 4) &&& 3 = DMA_IMMEDIATE ∧ 0 < demoCPU.run_until preemptionExample.ext) ∧
    (Write preemptionExample.dmac 0 11 0x80).current = ((0 : Nat) : Int) ∧
    (Write preemptionExample.dmac 0 11 0x80).interleaved = true ∧
    (Run demoCPU { preemptionExample with
        dmac := Write preemptionExample.dmac 0 11 0x80 }).dmac.interleaved = false ∧
    (Run demoCPU { preemptionExample with
        dmac := Write preemptionExample.dmac 0 11 0x80 }).bus = preemptionExample.bus ∧
    ((Run demoCPU { preemptionExample with
        dmac := Write preemptionExample.dmac 0 11 0x80 }).dmac.dma 2).internal
      = (preemptionExample.dmac.dma 2).internal := by
  have h := arming_preempts_current demoCPU preemptionExample 0 2 0x80 (by decide) (by decide) (by decide)
    (by decide) (by decide) (by decide) (by decide) (by decide)
  exact ⟨by decide, h.1, h.2.1, h.2.2.2.1, h.2.2.2.2.1, h.2.2.2.2.2.2.2⟩

/-! ## Address arithmetic of a burst -/

theorem g_dma_modify_eq_specStep (size cntl : Nat)
    (hsize : size = DMA_WORD ∨ size = DMA_HWORD) (hc : cntl ≤ 3) :
    (g_dma_modify.getD size []).getD cntl 0 = specStep size cntl := by
  rcases hsize with h | h <;> subst h <;> interval_cases cntl <;> rfl

theorem unitAddr_zero (A : Nat) (step : Int) (hA : A < 4294967296) : unitAddr A step 0 = A := by
  unfold unitAddr
  have h : ((A : Int) + ((0 : Nat) : Int) * step) % 4294967296 = (A : Int) := by
    have h0 : (0 : Int) ≤ (A : Int) := Int.ofNat_nonneg A
    have h1 : (A : Int) < 4294967296 := by exact_mod_cast hA
    simp only [Nat.cast_zero, zero_mul, add_zero]
    exact Int.emod_eq_of_lt h0 h1
  rw [h, Int.toNat_ofNat]

theorem unitAddr_lt (A : Nat) (step : Int) (k : Nat) : unitAddr A step k < 4294967296 := by
  unfold unitAddr
  have h0 : 0 ≤ ((A : Int) + (k : Int) * step) % 4294967296 :=
    Int.emod_nonneg _ (by norm_num)
  have h1 : ((A : Int) + (k : Int) * step) % 4294967296 < 4294967296 :=
    Int.emod_lt_of_pos _ (by norm_num)
  omega

theorem addWrap32_lt (A : Nat) (step : Int) : addWrap32 A step < 4294967296 := by
  unfold addWrap32
  have h0 : 0 ≤ ((A : Int) + step) % 4294967296 := Int.emod_nonneg _ (by norm_num)
  have h1 : ((A : Int) + step) % 4294967296 < 4294967296 := Int.emod_lt_of_pos _ (by norm_num)
  omega

/-- Unit `k` of a burst that starts one step further is unit `k + 1` of the burst. -/
theorem unitAddr_addWrap32 (A : Nat) (step : Int) (k : Nat) :
    unitAddr (addWrap32 A step) step k = unitAddr A step (k + 1) := by
  unfold unitAddr addWrap32
  have h0 : 0 ≤ ((A : Int) + step) % 4294967296 := Int.emod_nonneg _ (by norm_num)
  rw [Int.toNat_of_nonneg h0, Int.emod_add_emod]
  congr 2
  push_cast
  ring

/-- The specification's unit `k` is the unit the loop performs: the step of `extAfter`
in the terms of the loop body. -/
theorem extAfter_succ {M : Type} (cpu : CPU M) (size a b S D : Nat) (m : M) (k : Nat) :
    extAfter cpu size a b S D m (k + 1) =
      cpu.writeUnit size
        (cpu.readUnit size (extAfter cpu size a b S D m k) (unitAddr S (specStep size a) k)).2
        (unitAddr D (specStep size b) k)
        (cpu.readUnit size (extAfter cpu size a b S D m k) (unitAddr S (specStep size a) k)).1 := by
  rw [extAfter]
  unfold CPU.writeUnit CPU.readUnit
  split_ifs <;> rfl

/-- The value of the specification's unit `k` is the value the loop reads. -/
theorem unitValue_eq {M : Type} (cpu : CPU M) (size a b S D : Nat) (m : M) (k : Nat) :
    unitValue cpu size a b S D m k =
      (cpu.readUnit size (extAfter cpu size a b S D m k) (unitAddr S (specStep size a) k)).1 := by
  unfold unitValue CPU.readUnit
  split_ifs <;> rfl

theorem extAfter_shift {M : Type} (cpu : CPU M) (size a b S D : Nat) (m : M) (k : Nat) :
    extAfter cpu size a b (addWrap32 S (specStep size a)) (addWrap32 D (specStep size b))
      (cpu.writeUnit size (cpu.readUnit size m (unitAddr S (specStep size a) 0)).2
        (unitAddr D (specStep size b) 0)
        (cpu.readUnit size m (unitAddr S (specStep size a) 0)).1) k
      = extAfter cpu size a b S D m (k + 1) := by
  induction k with
  | zero =>
    rw [extAfter_succ]
    rfl
  | succ k ih =>
    rw [extAfter_succ, ih, unitAddr_addWrap32, unitAddr_addWrap32,
      extAfter_succ cpu size a b S D m (k + 1)]

theorem unitOps_shift {M : Type} (cpu : CPU M) (size a b S D : Nat) (m : M) (n : Nat) :
    unitOps cpu size a b (addWrap32 S (specStep size a)) (addWrap32 D (specStep size b))
      (cpu.writeUnit size (cpu.readUnit size m (unitAddr S (specStep size a) 0)).2
        (unitAddr D (specStep size b) 0)
        (cpu.readUnit size m (unitAddr S (specStep size a) 0)).1) n
      = unitOps cpu size a b S D m (n + 1) := by
  unfold unitOps
  rw [unitValue_eq, unitValue_eq, extAfter_shift, unitAddr_addWrap32, unitAddr_addWrap32]

theorem burstOps_shift {M : Type} (cpu : CPU M) (size a b S D : Nat) (m : M) (n : Nat) :
    unitOps cpu size a b S D m 0 ++
      burstOps cpu size a b (addWrap32 S (specStep size a)) (addWrap32 D (specStep size b))
        (cpu.writeUnit size (cpu.readUnit size m (unitAddr S (specStep size a) 0)).2
          (unitAddr D (specStep size b) 0)
          (cpu.readUnit size m (unitAddr S (specStep size a) 0)).1) n
      = burstOps cpu size a b S D m (n + 1) := by
  induction n with
  | zero => simp [burstOps]
  | succ n ih =>
    rw [burstOps, ← List.append_assoc, ih, unitOps_shift]
    conv_rhs => rw [burstOps]

theorem burstOps_length {M : Type} (cpu : CPU M) (size a b S D : Nat) (m : M) (n : Nat) :
    (burstOps cpu size a b S D m n).length = 2 * n := by
  induction n with
  | zero => rfl
  | succ n ih =>
    rw [burstOps, List.length_append, ih]
    simp [unitOps]
    omega

/-- A burst whose budget is positive at every poll and that starts with `interleaved`
clear runs to completion, making exactly the accesses of `burstOps` and leaving the
collaborator in the state `extAfter`. -/
theorem transferLoop_full {M : Type} (cpu : CPU M) (size a b : Nat) :
    ∀ (n S D : Nat) (m : M) (bus : List BusOp),
      S < 4294967296 → D < 4294967296 →
      (∀ k, k < n → 0 < cpu.run_until (extAfter cpu size a b S D m k)) →
      transferLoop cpu size (specStep size a) (specStep size b) n S D false m bus =
        { completed := true, length := 0,
          src_addr := unitAddr S (specStep size a) n,
          dst_addr := unitAddr D (specStep size b) n,
          interleaved := false,
          ext := extAfter cpu size a b S D m n,
          bus := bus ++ burstOps cpu size a b S D m n } := by
  intro n
  induction n with
  | zero =>
    intro S D m bus hS hD _
    simp [transferLoop, unitAddr_zero _ _ hS, unitAddr_zero _ _ hD, extAfter, burstOps]
  | succ n ih =>
    intro S D m bus hS hD hbud
    have h0 : 0 < cpu.run_until m := hbud 0 (Nat.succ_pos n)
    have hrest : ∀ k, k < n → 0 < cpu.run_until
        (extAfter cpu size a b (addWrap32 S (specStep size a)) (addWrap32 D (specStep size b))
          (cpu.writeUnit size (cpu.readUnit size m (unitAddr S (specStep size a) 0)).2
            (unitAddr D (specStep size b) 0)
            (cpu.readUnit size m (unitAddr S (specStep size a) 0)).1) k) := by
      intro k hk
      rw [extAfter_shift]
      exact hbud (k + 1) (Nat.succ_lt_succ hk)
    have hih := ih (addWrap32 S (specStep size a)) (addWrap32 D (specStep size b))
      (cpu.writeUnit size (cpu.readUnit size m (unitAddr S (specStep size a) 0)).2
        (unitAddr D (specStep size b) 0)
        (cpu.readUnit size m (unitAddr S (specStep size a) 0)).1)
      (bus ++ unitOps cpu size a b S D m 0)
      (addWrap32_lt _ _) (addWrap32_lt _ _) hrest
    rw [unitAddr_addWrap32, unitAddr_addWrap32, extAfter_shift, List.append_assoc,
      burstOps_shift] at hih
    rw [← hih]
    have hm0 : extAfter cpu size a b S D m 0 = m := rfl
    simp only [unitAddr_zero _ _ hS, unitAddr_zero _ _ hD, unitOps, unitValue_eq, hm0]
    simp [transferLoop, not_le.mpr h0]

/-- A loop that runs to completion has advanced both addresses by one step per unit of
the initial length. -/
theorem transferLoop_completed {M : Type} (cpu : CPU M) (size : Nat) (sm dm : Int) :
    ∀ (n S D : Nat) (il : Bool) (m : M) (bus : List BusOp),
      S < 4294967296 → D < 4294967296 →
      (transferLoop cpu size sm dm n S D il m bus).completed = true →
      (transferLoop cpu size sm dm n S D il m bus).length = 0 ∧
      (transferLoop cpu size sm dm n S D il m bus).src_addr = unitAddr S sm n ∧
      (transferLoop cpu size sm dm n S D il m bus).dst_addr = unitAddr D dm n := by
  intro n
  induction n with
  | zero =>
    intro S D il m bus hS hD _
    simp [transferLoop, unitAddr_zero _ _ hS, unitAddr_zero _ _ hD]
  | succ n ih =>
    intro S D il m bus hS hD hdone
    unfold transferLoop at hdone ⊢
    by_cases hb : cpu.run_until m ≤ 0
    · simp [hb] at hdone
    · cases il with
      | true => simp [hb] at hdone
      | false =>
        simp only [hb, if_false, Bool.false_eq_true] at hdone ⊢
        have h := ih _ _ _ _ _ (addWrap32_lt S sm) (addWrap32_lt D dm) hdone
        rw [unitAddr_addWrap32, unitAddr_addWrap32] at h
        exact h

/-! ## Clearing one bit of a set -/

theorem testBit_mask32 (j : Nat) : (4294967295 : Nat).testBit j = decide (j < 32) := by
  have h : (4294967295 : Nat) = 2 ^ 32 - 1 := by norm_num
  rw [h, Nat.testBit_two_pow_sub_one]

theorem clear_bit_self (x c : Nat) (hc : c < 32) :
    (x &&& bitNot32 (1 <<< c)).testBit c = false := by
  simp [bitNot32, Nat.testBit_and, Nat.testBit_xor, testBit_mask32, Nat.one_shiftLeft,
    Nat.testBit_two_pow, hc]

theorem clear_bit_other (x c j : Nat) (hj : j ≠ c) (hj32 : j < 32) :
    (x &&& bitNot32 (1 <<< c)).testBit j = x.testBit j := by
  simp [bitNot32, Nat.testBit_and, Nat.testBit_xor, testBit_mask32, Nat.one_shiftLeft,
    Nat.testBit_two_pow, hj32, Ne.symm hj]

/-! ## Completion bookkeeping -/

@[simp] theorem RunCompletion_bus {M : Type} (cpu : CPU M) (sys : System M) (d : Nat) :
    (RunCompletion cpu sys d).bus = sys.bus := rfl

@[simp] theorem RunCompletion_ext {M : Type} (cpu : CPU M) (sys : System M) (d : Nat) :
    (RunCompletion cpu sys d).ext = sys.ext := rfl

/-- Completion of a channel without repeat. -/
theorem RunCompletion_no_repeat {M : Type} (cpu : CPU M) (sys : System M) (d : Nat)
    (hrep : (sys.dmac.dma sys.dmac.current.toNat).repeat_ = false) :
    (RunCompletion cpu sys d).dmac.run_set
      = sys.dmac.run_set &&& bitNot32 (1 <<< sys.dmac.current.toNat) ∧
    ∀ j, (RunCompletion cpu sys d).dmac.dma j
      = (sys.dmac.setDma sys.dmac.current.toNat
          { (sys.dmac.dma sys.dmac.current.toNat) with enable := false }).dma j := by
  unfold RunCompletion
  simp only [hrep, Bool.false_eq_true, if_false, setDma_run_set]
  constructor
  · split_ifs <;> rfl
  · intro j
    split_ifs <;> rfl

/-- Completion of a channel with repeat. -/
theorem RunCompletion_repeat {M : Type} (cpu : CPU M) (sys : System M) (d : Nat)
    (hrep : (sys.dmac.dma sys.dmac.current.toNat).repeat_ = true) :
    (RunCompletion cpu sys d).dmac.run_set
      = (if (sys.dmac.dma sys.dmac.current.toNat).time ≠ DMA_IMMEDIATE
         then sys.dmac.run_set &&& bitNot32 (1 <<< sys.dmac.current.toNat)
         else sys.dmac.run_set) ∧
    ∀ j, (RunCompletion cpu sys d).dmac.dma j
      = (sys.dmac.setDma sys.dmac.current.toNat
          { (sys.dmac.dma sys.dmac.current.toNat) with
            internal :=
              { length := latchLength (sys.dmac.dma sys.dmac.current.toNat).length
                  sys.dmac.current.toNat,
                dst_addr :=
                  if d = DMA_RELOAD then
                    (sys.dmac.dma sys.dmac.current.toNat).dst_addr &&&
                      g_dma_dst_mask.getD sys.dmac.current.toNat 0
                  else (sys.dmac.dma sys.dmac.current.toNat).internal.dst_addr,
                src_addr := (sys.dmac.dma sys.dmac.current.toNat).internal.src_addr } }).dma j := by
  unfold RunCompletion
  simp only [hrep, if_true]
  constructor
  · split_ifs <;> simp
  · intro j
    split_ifs <;> rfl

theorem Run_of_completed {M : Type} (cpu : CPU M) (sys : System M)
    (hdone : (RunBurst cpu sys).completed = true) :
    Run cpu sys = RunCompletion cpu (storeBurst sys (RunBurst cpu sys))
      (sys.dmac.dma sys.dmac.current.toNat).dst_cntl := by
  unfold Run
  simp only [hdone, if_true]

/-- The state after a Run call that completed a channel without repeat. -/
theorem Run_completed_no_repeat {M : Type} (cpu : CPU M) (sys : System M) (c : Nat)
    (hc : c < 4) (hcur : sys.dmac.current = (c : Int))
    (hdone : (RunBurst cpu sys).completed = true)
    (hrep : (sys.dmac.dma c).repeat_ = false) :
    (Run cpu sys).dmac.run_set = sys.dmac.run_set &&& bitNot32 (1 <<< c) ∧
    (Run cpu sys).dmac.dma c =
      { (sys.dmac.dma c) with
        enable := false,
        internal := { length := (RunBurst cpu sys).length, dst_addr := (RunBurst cpu sys).dst_addr,
                      src_addr := (RunBurst cpu sys).src_addr } } := by
  have hct : sys.dmac.current.toNat = c := by rw [hcur, Int.toNat_ofNat]
  have hc1 : (storeBurst sys (RunBurst cpu sys)).dmac.current.toNat = c := by
    rw [storeBurst_current, hct]
  have hd1 : (storeBurst sys (RunBurst cpu sys)).dmac.dma c =
      { (sys.dmac.dma c) with
        internal := { length := (RunBurst cpu sys).length, dst_addr := (RunBurst cpu sys).dst_addr,
                      src_addr := (RunBurst cpu sys).src_addr } } := by
    have h := storeBurst_dma_same sys (RunBurst cpu sys) (by rw [hct]; exact hc)
    rw [hct] at h
    exact h
  have hrep1 : ((storeBurst sys (RunBurst cpu sys)).dmac.dma
      (storeBurst sys (RunBurst cpu sys)).dmac.current.toNat).repeat_ = false := by
    rw [hc1, hd1]; exact hrep
  obtain ⟨hrs, hdma⟩ := RunCompletion_no_repeat cpu _
    (sys.dmac.dma sys.dmac.current.toNat).dst_cntl hrep1
  rw [hc1, storeBurst_run_set] at hrs
  rw [hc1] at hdma
  rw [Run_of_completed cpu sys hdone]
  refine ⟨hrs, ?_⟩
  rw [hdma c, dma_setDma_same _ _ _ hc, hd1]

/-- The state after a Run call that completed a channel with repeat. -/
theorem Run_completed_repeat {M : Type} (cpu : CPU M) (sys : System M) (c : Nat)
    (hc : c < 4) (hcur : sys.dmac.current = (c : Int))
    (hdone : (RunBurst cpu sys).completed = true)
    (hrep : (sys.dmac.dma c).repeat_ = true) :
    (Run cpu sys).dmac.run_set =
      (if (sys.dmac.dma c).time ≠ DMA_IMMEDIATE
       then sys.dmac.run_set &&& bitNot32 (1 <<< c) else sys.dmac.run_set) ∧
    (Run cpu sys).dmac.dma c =
      { (sys.dmac.dma c) with
        internal :=
          { length := latchLength (sys.dmac.dma c).length c,
            dst_addr :=
              if (sys.dmac.dma c).dst_cntl = DMA_RELOAD then
                (sys.dmac.dma c).dst_addr &&& g_dma_dst_mask.getD c 0
              else (RunBurst cpu sys).dst_addr,
            src_addr := (RunBurst cpu sys).src_addr } } := by
  have hct : sys.dmac.current.toNat = c := by rw [hcur, Int.toNat_ofNat]
  have hc1 : (storeBurst sys (RunBurst cpu sys)).dmac.current.toNat = c := by
    rw [storeBurst_current, hct]
  have hd1 : (storeBurst sys (RunBurst cpu sys)).dmac.dma c =
      { (sys.dmac.dma c) with
        internal := { length := (RunBurst cpu sys).length, dst_addr := (RunBurst cpu sys).dst_addr,
                      src_addr := (RunBurst cpu sys).src_addr } } := by
    have h := storeBurst_dma_same sys (RunBurst cpu sys) (by rw [hct]; exact hc)
    rw [hct] at h
    exact h
  have hrep1 : ((storeBurst sys (RunBurst cpu sys)).dmac.dma
      (storeBurst sys (RunBurst cpu sys)).dmac.current.toNat).repeat_ = true := by
    rw [hc1, hd1]; exact hrep
  obtain ⟨hrs, hdma⟩ := RunCompletion_repeat cpu _
    (sys.dmac.dma sys.dmac.current.toNat).dst_cntl hrep1
  rw [hc1, hd1, storeBurst_run_set] at hrs
  rw [hc1] at hdma
  rw [Run_of_completed cpu sys hdone]
  refine ⟨hrs, ?_⟩
  rw [hdma c, dma_setDma_same _ _ _ hc, hd1, hct]

/-! ## C7 -/

/-- C7: when a Run call reaches natural completion of the current channel c (the loop
is left without a return), then afterwards: if repeat is false, channel c's enable is
false and bit c of run_set is clear; if repeat is true, enable is as before, bit c of
run_set is clear when timing != Immediate and run_set is unchanged when timing =
Immediate; in both cases every other bit of run_set (below bit 32) is unchanged. -/
theorem completion_bookkeeping {M : Type} (cpu : CPU M) (sys : System M) (c : Nat)
    (hc : c < 4) (hcur : sys.dmac.current = (c : Int))
    (hdone : (RunBurst cpu sys).completed = true) :
    ((sys.dmac.dma c).repeat_ = false →
      ((Run cpu sys).dmac.dma c).enable = false ∧
      (Run cpu sys).dmac.run_set.testBit c = false) ∧
    ((sys.dmac.dma c).repeat_ = true →
      ((Run cpu sys).dmac.dma c).enable = (sys.dmac.dma c).enable ∧
      ((sys.dmac.dma c).time ≠ DMA_IMMEDIATE → (Run cpu sys).dmac.run_set.testBit c = false) ∧
      ((sys.dmac.dma c).time = DMA_IMMEDIATE →
        (Run cpu sys).dmac.run_set = sys.dmac.run_set)) ∧
    (∀ j, j < 32 → j ≠ c →
      (Run cpu sys).dmac.run_set.testBit j = sys.dmac.run_set.testBit j) := by
  refine ⟨?_, ?_, ?_⟩
  · intro hrep
    obtain ⟨hrs, hdma⟩ := Run_completed_no_repeat cpu sys c hc hcur hdone hrep
    constructor
    · rw [hdma]
    · rw [hrs]
      exact clear_bit_self _ _ (by omega)
  · intro hrep
    obtain ⟨hrs, hdma⟩ := Run_completed_repeat cpu sys c hc hcur hdone hrep
    refine ⟨?_, ?_, ?_⟩
    · rw [hdma]
    · intro ht
      rw [hrs, if_pos ht]
      exact clear_bit_self _ _ (by omega)
    · intro ht
      rw [hrs]
      simp [ht]
  · intro j hj hjc
    cases hrep : (sys.dmac.dma c).repeat_ with
    | false =>
      rw [(Run_completed_no_repeat cpu sys c hc hcur hdone hrep).1]
      exact clear_bit_other _ _ _ hjc hj
    | true =>
      rw [(Run_completed_repeat cpu sys c hc hcur hdone hrep).1]
      split_ifs
      · exact clear_bit_other _ _ _ hjc hj
      · rfl

/-- The instance of the specification: length 1 without repeat; after one Run call the
channel is disabled and out of run_set. -/
theorem completion_bookkeeping_witness :
    (0 < 4 ∧ completionExample.dmac.current = ((0 : Nat) : Int) ∧
      (RunBurst demoCPU completionExample).completed = true ∧
      (completionExample.dmac.dma 0).length = 1 ∧
      (completionExample.dmac.dma 0).repeat_ = false) ∧
    ((Run demoCPU completionExample).dmac.dma 0).enable = false ∧
    (Run demoCPU completionExample).dmac.run_set.testBit 0 = false :=
  ⟨by decide,
    (completion_bookkeeping demoCPU completionExample 0 (by decide) (by decide)
      (by decide)).1 (by decide)⟩

/-! ## C6 -/

/-- Unit `k` of a burst of `n` units is the read at index `2 * k` of the access list and
the write at index `2 * k + 1`. -/
theorem burstOps_unit {M : Type} (cpu : CPU M) (size a b S D : Nat) (m : M) :
    ∀ (n k : Nat), k < n →
      (burstOps cpu size a b S D m n)[2 * k]? =
        some (BusOp.read size (unitAddr S (specStep size a) k)) ∧
      (burstOps cpu size a b S D m n)[2 * k + 1]? =
        some (BusOp.write size (unitAddr D (specStep size b) k)
          (unitValue cpu size a b S D m k)) := by
  intro n
  induction n with
  | zero => intro k hk; exact absurd hk (Nat.not_lt_zero k)
  | succ n ih =>
    intro k hk
    have hlen := burstOps_length cpu size a b S D m n
    rw [burstOps]
    by_cases hkn : k < n
    · rw [List.getElem?_append_left (by omega), List.getElem?_append_left (by omega)]
      exact ih k hkn
    · have hk2 : k = n := by omega
      subst hk2
      rw [List.getElem?_append_right (by omega), List.getElem?_append_right (by omega)]
      have e1 : 2 * k - (burstOps cpu size a b S D m k).length = 0 := by omega
      have e2 : 2 * k + 1 - (burstOps cpu size a b S D m k).length = 1 := by omega
      rw [e1, e2]
      exact ⟨rfl, rfl⟩

/-- C6: for a current channel c with unit size `size`, source control a, destination
control b, latched source S, destination D and length n, a Run call that starts with
interleaved clear and finds the budget positive at each of its n polls performs exactly
n unit transfers on the bus and nothing else: for every collaborator, its state after
the call is its state after n units, where unit k (k = 0..n-1) is one call of
cpu->ReadWord (word size) or cpu->ReadHalf (half-word size) at
(S + k*step(size,a)) mod 2^32 followed by one call of cpu->WriteWord or cpu->WriteHalf
of the value just read at (D + k*step(size,b)) mod 2^32, with step the table of the
specification (equal to g_dma_modify).  The loop is left by completion with
internal.length = 0 and the addresses at S + n*step and D + n*step; the access log
holds the same 2n accesses in order; and without repeat the channel ends disabled. -/
theorem burst_address_sequence {M : Type} (cpu : CPU M) (sys : System M)
    (c size a b S D n : Nat)
    (hc : c < 4) (hcur : sys.dmac.current = (c : Int))
    (hsz : (sys.dmac.dma c).size = size) (hsize : size = DMA_WORD ∨ size = DMA_HWORD)
    (ha : (sys.dmac.dma c).src_cntl = a) (ha3 : a ≤ 3)
    (hb : (sys.dmac.dma c).dst_cntl = b) (hb3 : b ≤ 3)
    (hS : (sys.dmac.dma c).internal.src_addr = S) (hS32 : S < 4294967296)
    (hD : (sys.dmac.dma c).internal.dst_addr = D) (hD32 : D < 4294967296)
    (hn : (sys.dmac.dma c).internal.length = n)
    (hil : sys.dmac.interleaved = false)
    (hbudget : ∀ k, k < n → 0 < cpu.run_until (extAfter cpu size a b S D sys.ext k)) :
    RunBurst cpu sys =
      { completed := true, length := 0,
        src_addr := unitAddr S (specStep size a) n,
        dst_addr := unitAddr D (specStep size b) n,
        interleaved := false,
        ext := extAfter cpu size a b S D sys.ext n,
        bus := sys.bus ++ burstOps cpu size a b S D sys.ext n } ∧
    (Run cpu sys).ext = extAfter cpu size a b S D sys.ext n ∧
    extAfter cpu size a b S D sys.ext 0 = sys.ext ∧
    (∀ k, k < n →
      extAfter cpu size a b S D sys.ext (k + 1) =
        (if size = DMA_WORD then
          cpu.WriteWord
            (cpu.ReadWord (extAfter cpu size a b S D sys.ext k)
              (unitAddr S (specStep size a) k)).2
            (unitAddr D (specStep size b) k)
            (cpu.ReadWord (extAfter cpu size a b S D sys.ext k)
              (unitAddr S (specStep size a) k)).1
         else
          cpu.WriteHalf
            (cpu.ReadHalf (extAfter cpu size a b S D sys.ext k)
              (unitAddr S (specStep size a) k)).2
            (unitAddr D (specStep size b) k)
            (cpu.ReadHalf (extAfter cpu size a b S D sys.ext k)
              (unitAddr S (specStep size a) k)).1)) ∧
    (Run cpu sys).bus = sys.bus ++ burstOps cpu size a b S D sys.ext n ∧
    (burstOps cpu size a b S D sys.ext n).length = 2 * n ∧
    (∀ k, k < n →
      (burstOps cpu size a b S D sys.ext n)[2 * k]? =
        some (BusOp.read size (unitAddr S (specStep size a) k)) ∧
      (burstOps cpu size a b S D sys.ext n)[2 * k + 1]? =
        some (BusOp.write size (unitAddr D (specStep size b) k)
          (if size = DMA_WORD then
            (cpu.ReadWord (extAfter cpu size a b S D sys.ext k)
              (unitAddr S (specStep size a) k)).1
           else
            (cpu.ReadHalf (extAfter cpu size a b S D sys.ext k)
              (unitAddr S (specStep size a) k)).1))) ∧
    (g_dma_modify.getD size []).getD a 0 = specStep size a ∧
    (g_dma_modify.getD size []).getD b 0 = specStep size b ∧
    ((sys.dmac.dma c).repeat_ = false → ((Run cpu sys).dmac.dma c).enable = false) := by
  have hct : sys.dmac.current.toNat = c := by rw [hcur, Int.toNat_ofNat]
  have hburst : RunBurst cpu sys =
      { completed := true, length := 0,
        src_addr := unitAddr S (specStep size a) n,
        dst_addr := unitAddr D (specStep size b) n,
        interleaved := false,
        ext := extAfter cpu size a b S D sys.ext n,
        bus := sys.bus ++ burstOps cpu size a b S D sys.ext n } := by
    unfold RunBurst
    simp only [hct, hsz, ha, hb, hS, hD, hn, hil, hsize, if_true,
      g_dma_modify_eq_specStep size a hsize ha3, g_dma_modify_eq_specStep size b hsize hb3]
    exact transferLoop_full cpu size a b n S D sys.ext sys.bus hS32 hD32 hbudget
  have hdone : (RunBurst cpu sys).completed = true := by rw [hburst]
  have hrun := Run_of_completed cpu sys hdone
  refine ⟨hburst, ?_, rfl, fun k _ => rfl, ?_, burstOps_length _ _ _ _ _ _ _ _,
    burstOps_unit _ _ _ _ _ _ _ n,
    g_dma_modify_eq_specStep size a hsize ha3, g_dma_modify_eq_specStep size b hsize hb3, ?_⟩
  · rw [hrun, RunCompletion_ext, storeBurst_ext, hburst]
  · rw [hrun, RunCompletion_bus, storeBurst_bus, hburst]
  · intro hrep
    rw [(Run_completed_no_repeat cpu sys c hc hcur hdone hrep).2]

/-- The end-to-end scenario of the specification beside a collaborator that records its
calls: Run makes four word reads from 0x08000000 on, each followed by the word write of
the value read from 0x02000000 on, and nothing else, and channel 3 ends disabled; and a
half-word burst of three units with source control Decrement and destination control
Fixed makes three half-word reads downwards from 0x03000004, each followed by the
half-word write of the value read at 0x04000000. -/
theorem burst_address_sequence_witness :
    (3 < 4 ∧ endToEndExample.dmac.current = ((3 : Nat) : Int) ∧
      (endToEndExample.dmac.dma 3).size = DMA_WORD ∧
      (endToEndExample.dmac.dma 3).src_cntl = DMA_INCREMENT ∧
      (endToEndExample.dmac.dma 3).dst_cntl = DMA_INCREMENT ∧
      (endToEndExample.dmac.dma 3).internal.src_addr = 0x08000000 ∧
      (endToEndExample.dmac.dma 3).internal.dst_addr = 0x02000000 ∧
      (endToEndExample.dmac.dma 3).internal.length = 4 ∧
      endToEndExample.dmac.interleaved = false ∧ endToEndExample.ext = []) ∧
    (Run recordingCPU endToEndExample).ext =
      [BusCall.ReadWord 0x08000000, BusCall.WriteWord 0x02000000 0x08000001,
       BusCall.ReadWord 0x08000004, BusCall.WriteWord 0x02000004 0x08000005,
       BusCall.ReadWord 0x08000008, BusCall.WriteWord 0x02000008 0x08000009,
       BusCall.ReadWord 0x0800000C, BusCall.WriteWord 0x0200000C 0x0800000D] ∧
    (Run recordingCPU endToEndExample).bus =
      [BusOp.read DMA_WORD 0x08000000, BusOp.write DMA_WORD 0x02000000 0x08000001,
       BusOp.read DMA_WORD 0x08000004, BusOp.write DMA_WORD 0x02000004 0x08000005,
       BusOp.read DMA_WORD 0x08000008, BusOp.write DMA_WORD 0x02000008 0x08000009,
       BusOp.read DMA_WORD 0x0800000C, BusOp.write DMA_WORD 0x0200000C 0x0800000D] ∧
    ((Run recordingCPU endToEndExample).dmac.dma 3).enable = false ∧
    ((halfWordExample.dmac.dma 0).size = DMA_HWORD ∧
      (halfWordExample.dmac.dma 0).src_cntl = DMA_DECREMENT ∧
      (halfWordExample.dmac.dma 0).dst_cntl = DMA_FIXED ∧
      (halfWordExample.dmac.dma 0).internal.length = 3) ∧
    (Run recordingCPU halfWordExample).ext =
      [BusCall.ReadHalf 0x03000004, BusCall.WriteHalf 0x04000000 5,
       BusCall.ReadHalf 0x03000002, BusCall.WriteHalf 0x04000000 3,
       BusCall.ReadHalf 0x03000000, BusCall.WriteHalf 0x04000000 1] := by
  have h := burst_address_sequence recordingCPU endToEndExample 3 DMA_WORD DMA_INCREMENT
    DMA_INCREMENT 0x08000000 0x02000000 4 (by decide) (by decide) (by decide) (by decide)
    (by decide) (by decide) (by decide) (by decide) (by decide) (by decide) (by decide)
    (by decide) (by decide) (by decide) (by decide)
  have g := burst_address_sequence recordingCPU halfWordExample 0 DMA_HWORD DMA_DECREMENT
    DMA_FIXED 0x03000004 0x04000000 3 (by decide) (by decide) (by decide) (by decide)
    (by decide) (by decide) (by decide) (by decide) (by decide) (by decide) (by decide)
    (by decide) (by decide) (by decide) (by decide)
  exact ⟨by decide, h.2.1.trans (by decide), h.2.2.2.2.1.trans (by decide),
    h.2.2.2.2.2.2.2.2.2 (by decide), by decide, g.2.1.trans (by decide)⟩

/-! ## C8 -/

/-- C8: when Run naturally completes a burst for the current channel c with repeat
set, starting from latched source S, destination D and length n, then afterwards
internal.length = length & len_mask[c], or len_mask[c] + 1 if that is zero (from the
visible length register); internal.dst_addr = dst_addr & dst_mask[c] if dst_control is
IncrementReload and otherwise its post-burst value (D + n*step) mod 2^32;
internal.src_addr is its post-burst value (S + n*step) mod 2^32 whatever src_control
is, the reload code included. -/
theorem repeat_reload {M : Type} (cpu : CPU M) (sys : System M) (c S D n : Nat)
    (hc : c < 4) (hcur : sys.dmac.current = (c : Int))
    (hsize : (sys.dmac.dma c).size = DMA_WORD ∨ (sys.dmac.dma c).size = DMA_HWORD)
    (ha3 : (sys.dmac.dma c).src_cntl ≤ 3) (hb3 : (sys.dmac.dma c).dst_cntl ≤ 3)
    (hS : (sys.dmac.dma c).internal.src_addr = S) (hS32 : S < 4294967296)
    (hD : (sys.dmac.dma c).internal.dst_addr = D) (hD32 : D < 4294967296)
    (hn : (sys.dmac.dma c).internal.length = n)
    (hrep : (sys.dmac.dma c).repeat_ = true)
    (hdone : (RunBurst cpu sys).completed = true) :
    ((Run cpu sys).dmac.dma c).internal.length =
      (if (sys.dmac.dma c).length &&& g_dma_len_mask.getD c 0 ≠ 0
       then (sys.dmac.dma c).length &&& g_dma_len_mask.getD c 0
       else g_dma_len_mask.getD c 0 + 1) ∧
    ((Run cpu sys).dmac.dma c).internal.dst_addr =
      (if (sys.dmac.dma c).dst_cntl = DMA_RELOAD
       then (sys.dmac.dma c).dst_addr &&& g_dma_dst_mask.getD c 0
       else unitAddr D (specStep (sys.dmac.dma c).size (sys.dmac.dma c).dst_cntl) n) ∧
    ((Run cpu sys).dmac.dma c).internal.src_addr =
      unitAddr S (specStep (sys.dmac.dma c).size (sys.dmac.dma c).src_cntl) n := by
  have hct : sys.dmac.current.toNat = c := by rw [hcur, Int.toNat_ofNat]
  have hburst : RunBurst cpu sys =
      transferLoop cpu (sys.dmac.dma c).size
        (specStep (sys.dmac.dma c).size (sys.dmac.dma c).src_cntl)
        (specStep (sys.dmac.dma c).size (sys.dmac.dma c).dst_cntl)
        n S D sys.dmac.interleaved sys.ext sys.bus := by
    unfold RunBurst
    simp only [hct, hS, hD, hn, hsize, if_true,
      g_dma_modify_eq_specStep _ _ hsize ha3, g_dma_modify_eq_specStep _ _ hsize hb3]
  have hloop := transferLoop_completed cpu (sys.dmac.dma c).size
    (specStep (sys.dmac.dma c).size (sys.dmac.dma c).src_cntl)
    (specStep (sys.dmac.dma c).size (sys.dmac.dma c).dst_cntl)
    n S D sys.dmac.interleaved sys.ext sys.bus hS32 hD32 (by rw [← hburst]; exact hdone)
  rw [← hburst] at hloop
  obtain ⟨-, hdma⟩ := Run_completed_repeat cpu sys c hc hcur hdone hrep
  rw [hdma]
  refine ⟨?_, ?_, ?_⟩
  · simp only [latchLength]
    by_cases h0 : (sys.dmac.dma c).length &&& g_dma_len_mask.getD c 0 = 0 <;> simp [h0]
  · simp only [hloop.2.2]
  · exact hloop.2.1

/-- The instance of the specification: destination 0x06000000 with IncrementReload is
reloaded after the burst, the source continues from its post-burst value. -/
theorem repeat_reload_witness :
    (1 < 4 ∧ repeatExample.dmac.current = ((1 : Nat) : Int) ∧
      (repeatExample.dmac.dma 1).dst_cntl = DMA_RELOAD ∧
      (repeatExample.dmac.dma 1).dst_addr = 0x06000000 ∧
      (repeatExample.dmac.dma 1).internal.length = 2 ∧
      (repeatExample.dmac.dma 1).repeat_ = true ∧
      (RunBurst demoCPU repeatExample).completed = true) ∧
    ((Run demoCPU repeatExample).dmac.dma 1).internal.length = 2 ∧
    ((Run demoCPU repeatExample).dmac.dma 1).internal.dst_addr = 0x06000000 ∧
    ((Run demoCPU repeatExample).dmac.dma 1).internal.src_addr = 4 := by
  have h := repeat_reload demoCPU repeatExample 1 0 0x06000000 2 (by decide) (by decide)
    (by decide) (by decide) (by decide) (by decide) (by decide) (by decide) (by decide)
    (by decide) (by decide) (by decide)
  exact ⟨by decide, h.1.trans (by decide), h.2.1.trans (by decide), h.2.2.trans (by decide)⟩

/-! ## Single bits of a byte -/

theorem and_two_pow_ne_zero (v i : Nat) : ((v &&& 2 ^ i) != 0) = v.testBit i := by
  rw [Nat.and_two_pow]
  cases v.testBit i
  · simp
  · have h : 2 ^ i ≠ 0 := by positivity
    simp [h]

theorem shift_and_one (v i : Nat) : (v >>> i) &&& 1 = if v.testBit i = true then 1 else 0 := by
  rw [Nat.and_one_is_mod, Nat.shiftRight_eq_div_pow, ← Nat.toNat_testBit]
  cases v.testBit i <;> rfl

theorem testBit_two (i : Nat) : (2 : Nat).testBit i = decide (1 = i) := by
  have h : (2 : Nat) = 2 ^ 1 := rfl
  rw [h, Nat.testBit_two_pow]

theorem testBit_one_eq (i : Nat) : (1 : Nat).testBit i = decide (0 = i) := by
  have h : (1 : Nat) = 2 ^ 0 := rfl
  rw [h, Nat.testBit_two_pow]

theorem testBit_three (i : Nat) : (3 : Nat).testBit i = decide (i < 2) := by
  have h : (3 : Nat) = 2 ^ 2 - 1 := rfl
  rw [h, Nat.testBit_two_pow_sub_one]

/-! ## C11 -/

/-- C11: for a channel id in 0..3, any prior state and byte v, Write(id,10,v) sets
dst_control to bits[6:5] of v and the low bit of src_control to bit 7 of v and keeps
the high bit of src_control; Write(id,11,v) sets the high bit of src_control to bit 0
of v and keeps its low bit, and sets repeat = bit 1, size = bit 2 (0 half-word,
1 word), gamepak_drq = bit 3, interrupt = bit 6 and enable = bit 7. -/
theorem control_word_decode (s : DMAController) (id v : Nat) (hid : id < 4) (hv : v < 256) :
    ((Write s id 10 v).dma id).dst_cntl = (v >>> 5) &&& 3 ∧
    ((Write s id 10 v).dma id).dst_cntl.testBit 0 = v.testBit 5 ∧
    ((Write s id 10 v).dma id).dst_cntl.testBit 1 = v.testBit 6 ∧
    ((Write s id 10 v).dma id).dst_cntl < 4 ∧
    ((Write s id 10 v).dma id).src_cntl.testBit 0 = v.testBit 7 ∧
    ((Write s id 10 v).dma id).src_cntl.testBit 1 = (s.dma id).src_cntl.testBit 1 ∧
    ((Write s id 11 v).dma id).src_cntl.testBit 1 = v.testBit 0 ∧
    ((Write s id 11 v).dma id).src_cntl.testBit 0 = (s.dma id).src_cntl.testBit 0 ∧
    ((Write s id 11 v).dma id).repeat_ = v.testBit 1 ∧
    ((Write s id 11 v).dma id).size = (if v.testBit 2 = true then DMA_WORD else DMA_HWORD) ∧
    ((Write s id 11 v).dma id).gamepak = v.testBit 3 ∧
    ((Write s id 11 v).dma id).interrupt = v.testBit 6 ∧
    ((Write s id 11 v).dma id).enable = v.testBit 7 := by
  have h8 : v.testBit 8 = false := Nat.testBit_lt_two_pow (by simpa using hv)
  have e1 := and_two_pow_ne_zero v 1
  have e3 := and_two_pow_ne_zero v 3
  have e6 := and_two_pow_ne_zero v 6
  have e7 := and_two_pow_ne_zero v 7
  simp only [pow_one, Nat.reducePow] at e1 e3 e6 e7
  rw [Write10_dma_same _ _ _ hid, Write_eleven, Write11_dma_same _ _ _ hid]
  refine ⟨rfl, ?_, ?_, ?_, ?_, ?_, ?_, ?_, e1, ?_, e3, e6, e7⟩
  · simp [Nat.testBit_and, Nat.testBit_shiftRight, testBit_three]
  · simp [Nat.testBit_and, Nat.testBit_shiftRight, testBit_three]
  · have h : (v >>> 5) &&& 3 ≤ 3 := Nat.and_le_right
    show (v >>> 5) &&& 3 < 4
    omega
  · simp [Nat.testBit_or, Nat.testBit_and, Nat.testBit_shiftRight, testBit_two]
  · simp [Nat.testBit_or, Nat.testBit_and, Nat.testBit_shiftRight, testBit_two, h8]
  · simp only [Nat.testBit_or, Nat.testBit_and, Nat.testBit_shiftLeft, testBit_one_eq]
    simp
  · simp only [Nat.testBit_or, Nat.testBit_and, Nat.testBit_shiftLeft, testBit_one_eq]
    simp
  · exact shift_and_one v 2

/-- The decode of the bytes 0xE0 (offset 10) and 0xC7 (offset 11) on channel 1 from the
reset state. -/
theorem control_word_decode_witness :
    (1 < 4 ∧ 0xC7 < 256) ∧
    ((Write Reset 1 11 0xC7).dma 1).repeat_ = (0xC7).testBit 1 ∧
    ((Write Reset 1 11 0xC7).dma 1).size = DMA_WORD ∧
    ((Write Reset 1 11 0xC7).dma 1).gamepak = false ∧
    ((Write Reset 1 11 0xC7).dma 1).interrupt = true ∧
    ((Write Reset 1 11 0xC7).dma 1).enable = true := by
  have h := control_word_decode Reset 1 0xC7 (by decide) (by decide)
  exact ⟨by decide, h.2.2.2.2.2.2.2.2.1, h.2.2.2.2.2.2.2.2.2.1.trans (by decide),
    h.2.2.2.2.2.2.2.2.2.2.1.trans (by decide), h.2.2.2.2.2.2.2.2.2.2.2.1.trans (by decide),
    h.2.2.2.2.2.2.2.2.2.2.2.2.trans (by decide)⟩

/-! ## Setting one bit of a set -/

theorem set_bit_testBit (x c j : Nat) :
    (x ||| (1 <<< c)).testBit j = (x.testBit j || decide (c = j)) := by
  rw [Nat.testBit_or, Nat.one_shiftLeft, Nat.testBit_two_pow]

theorem set_bit_self (x c : Nat) : (x ||| (1 <<< c)).testBit c = true := by
  rw [set_bit_testBit]
  simp

theorem set_bit_other (x c j : Nat) (h : j ≠ c) : (x ||| (1 <<< c)).testBit j = x.testBit j := by
  rw [set_bit_testBit]
  simp [Ne.symm h]

/-! ## C13 -/

/-- C13: MarkDMAForExecution(id) sets run_set to run_set | (1 << id), that is, adds
bit id and keeps every other bit; if run_set was empty before, current becomes id and
interleaved is unchanged; otherwise, if id < current, current becomes id and
interleaved becomes true; otherwise current and interleaved are unchanged; no channel
record (visible or internal registers) and neither hblank_set nor vblank_set is
modified. -/
theorem mark_for_execution (s : DMAController) (id : Nat) :
    (MarkDMAForExecution s id).run_set = s.run_set ||| (1 <<< id) ∧
    (∀ j, (MarkDMAForExecution s id).run_set.testBit j
            = (s.run_set.testBit j || decide (id = j))) ∧
    (MarkDMAForExecution s id).current =
      (if s.run_set = 0 then (id : Int)
       else if (id : Int) < s.current then (id : Int) else s.current) ∧
    (MarkDMAForExecution s id).interleaved =
      (if s.run_set = 0 then s.interleaved
       else if (id : Int) < s.current then true else s.interleaved) ∧
    (∀ j, (MarkDMAForExecution s id).dma j = s.dma j) ∧
    (MarkDMAForExecution s id).hblank_set = s.hblank_set ∧
    (MarkDMAForExecution s id).vblank_set = s.vblank_set := by
  have hrs : (MarkDMAForExecution s id).run_set = s.run_set ||| (1 <<< id) := by
    unfold MarkDMAForExecution
    split_ifs <;> rfl
  refine ⟨hrs, ?_, ?_, ?_, MarkDMAForExecution_dma s id, ?_, ?_⟩
  · intro j
    rw [hrs, set_bit_testBit]
  · unfold MarkDMAForExecution
    split_ifs <;> rfl
  · unfold MarkDMAForExecution
    split_ifs <;> rfl
  · unfold MarkDMAForExecution
    split_ifs <;> rfl
  · unfold MarkDMAForExecution
    split_ifs <;> rfl

/-! ## C16 -/

theorem Write11_no_edge (s : DMAController) (id v : Nat)
    (h : (s.dma id).enable = true ∨ v.testBit 7 = false) :
    Write11 s id v =
      updateBlankSets
        (s.setDma id
          { (s.dma id) with
            src_cntl := ((s.dma id).src_cntl &&& 1) ||| ((v &&& 1) <<< 1),
            size := (v >>> 2) &&& 1,
            time := (v >>> 4) &&& 3,
            repeat_ := (v &&& 2) != 0,
            gamepak := (v &&& 8) != 0,
            interrupt := (v &&& 64) != 0,
            enable := (v &&& 128) != 0 })
        id ((v >>> 4) &&& 3) := by
  have hedge : (!(s.dma id).enable && ((v &&& 128) != 0)) = false := by
    rcases h with h | h
    · simp [h]
    · simp [bit7_clear v h]
  unfold Write11
  simp only [hedge, Bool.false_eq_true, if_false]

/-- C16: if Write(id,11,v) on a channel id in 0..3 does not produce a 0 to 1 transition
of enable (enable was already set, or bit 7 of v is clear), then every channel's
internal.src_addr, internal.dst_addr and internal.length, and run_set, current and
interleaved are unchanged; in particular this holds when id is the current channel and
v clears its enable bit. -/
theorem latch_on_rising_edge_only (s : DMAController) (id v : Nat) (hid : id < 4)
    (h : (s.dma id).enable = true ∨ v.testBit 7 = false) :
    (∀ j, ((Write s id 11 v).dma j).internal = (s.dma j).internal) ∧
    (Write s id 11 v).run_set = s.run_set ∧
    (Write s id 11 v).current = s.current ∧
    (Write s id 11 v).interleaved = s.interleaved := by
  rw [Write_eleven, Write11_no_edge s id v h]
  refine ⟨?_, ?_, ?_, ?_⟩
  · intro j
    rw [updateBlankSets_dma]
    by_cases hj : id = j
    · subst hj
      rw [dma_setDma_same _ _ _ hid]
    · rw [dma_setDma_other _ _ _ _ hj]
  · simp
  · simp
  · simp

/-- Channel 2 running from reset (`preemptionExample`), then its enable bit cleared:
it stays in run_set and its latched counters stay. -/
theorem latch_on_rising_edge_only_witness :
    (2 < 4 ∧ ((preemptionExample.dmac.dma 2).enable = true ∨ (0x00).testBit 7 = false) ∧
      preemptionExample.dmac.current = 2 ∧ preemptionExample.dmac.run_set = 0b0100) ∧
    ((Write preemptionExample.dmac 2 11 0x00).dma 2).enable = false ∧
    ((Write preemptionExample.dmac 2 11 0x00).dma 2).internal
      = (preemptionExample.dmac.dma 2).internal ∧
    (Write preemptionExample.dmac 2 11 0x00).run_set = 0b0100 := by
  have h := latch_on_rising_edge_only preemptionExample.dmac 2 0x00 (by decide) (by decide)
  exact ⟨by decide, by decide, h.1 2, h.2.1.trans (by decide)⟩

/-! ## C20 -/

theorem updateBlankSets_other_bits (s : DMAController) (id t j : Nat) (hne : j ≠ id)
    (hj : j < 32) :
    (updateBlankSets s id t).hblank_set.testBit j = s.hblank_set.testBit j ∧
    (updateBlankSets s id t).vblank_set.testBit j = s.vblank_set.testBit j := by
  unfold updateBlankSets
  split_ifs <;>
    exact ⟨by first | exact set_bit_other _ _ _ hne | exact clear_bit_other _ _ _ hne hj,
           by first | exact set_bit_other _ _ _ hne | exact clear_bit_other _ _ _ hne hj⟩

theorem MarkDMAForExecution_run_set (s : DMAController) (id : Nat) :
    (MarkDMAForExecution s id).run_set = s.run_set ||| (1 <<< id) := by
  unfold MarkDMAForExecution
  split_ifs <;> rfl

@[simp] theorem MarkDMAForExecution_hblank_set (s : DMAController) (id : Nat) :
    (MarkDMAForExecution s id).hblank_set = s.hblank_set := by
  unfold MarkDMAForExecution
  split_ifs <;> rfl

@[simp] theorem MarkDMAForExecution_vblank_set (s : DMAController) (id : Nat) :
    (MarkDMAForExecution s id).vblank_set = s.vblank_set := by
  unfold MarkDMAForExecution
  split_ifs <;> rfl

/-- The sets after a write to offset 11, bit by bit for the other channels. -/
theorem Write11_other_bits (s : DMAController) (id v j : Nat) (hne : j ≠ id) (hj : j < 32) :
    (Write11 s id v).hblank_set.testBit j = s.hblank_set.testBit j ∧
    (Write11 s id v).vblank_set.testBit j = s.vblank_set.testBit j ∧
    (Write11 s id v).run_set.testBit j = s.run_set.testBit j := by
  unfold Write11
  simp only
  split_ifs
  · refine ⟨?_, ?_, ?_⟩
    · rw [MarkDMAForExecution_hblank_set, setDma_hblank_set,
        (updateBlankSets_other_bits _ id _ j hne hj).1, setDma_hblank_set]
    · rw [MarkDMAForExecution_vblank_set, setDma_vblank_set,
        (updateBlankSets_other_bits _ id _ j hne hj).2, setDma_vblank_set]
    · rw [MarkDMAForExecution_run_set, set_bit_other _ _ _ hne]
      simp
  · refine ⟨?_, ?_, ?_⟩
    · rw [setDma_hblank_set, (updateBlankSets_other_bits _ id _ j hne hj).1, setDma_hblank_set]
    · rw [setDma_vblank_set, (updateBlankSets_other_bits _ id _ j hne hj).2, setDma_vblank_set]
    · simp
  · refine ⟨?_, ?_, ?_⟩
    · rw [(updateBlankSets_other_bits _ id _ j hne hj).1, setDma_hblank_set]
    · rw [(updateBlankSets_other_bits _ id _ j hne hj).2, setDma_vblank_set]
    · simp

/-- A write to an offset other than 11 is an update of the channel record. -/
theorem Write_eq_setDma (s : DMAController) (id offset v : Nat) (h : offset ≠ 11) :
    ∃ d : DMA, Write s id offset v = s.setDma id d ∧ d.internal = (s.dma id).internal ∧
      d.time = (s.dma id).time ∧ d.enable = (s.dma id).enable := by
  unfold Write
  split
  all_goals first
    | exact ⟨_, rfl, rfl, rfl, rfl⟩
    | exact absurd rfl h
    | exact ⟨s.dma id, (setDma_dma_self s id).symm, rfl, rfl, rfl⟩

/-- C20: for every channel id and every other channel j in 0..3, every state, offset and value, Write(id, offset,
value) leaves the whole record of channel j (visible and internal fields) unchanged and
leaves bit j of hblank_set, vblank_set and run_set unchanged; a write to an offset
above 11 leaves the whole controller state unchanged. -/
theorem write_channel_independence (s : DMAController) (id j offset v : Nat)
    (hj : j < 4) (hne : id ≠ j) :
    (Write s id offset v).dma j = s.dma j ∧
    (Write s id offset v).hblank_set.testBit j = s.hblank_set.testBit j ∧
    (Write s id offset v).vblank_set.testBit j = s.vblank_set.testBit j ∧
    (Write s id offset v).run_set.testBit j = s.run_set.testBit j ∧
    (11 < offset → Write s id offset v = s) := by
  have hlast : 11 < offset → Write s id offset v = s := by
    intro h
    unfold Write
    split
    all_goals first
      | rfl
      | (exfalso; omega)
  by_cases h11 : offset = 11
  · subst h11
    have hb := Write11_other_bits s id v j (Ne.symm hne) (by omega)
    exact ⟨Write11_dma_other s id j v hne, hb.1, hb.2.1, hb.2.2, hlast⟩
  · obtain ⟨d, hd, -⟩ := Write_eq_setDma s id offset v h11
    rw [hd]
    exact ⟨dma_setDma_other _ _ _ _ hne, by simp, by simp, by simp, hd ▸ hlast⟩

/-- A write to channel 0 (arming it with Immediate timing) beside the running channel 2
of `preemptionExample`. -/
theorem write_channel_independence_witness :
    (2 < 4 ∧ 0 ≠ 2) ∧
    (Write preemptionExample.dmac 0 11 0x80).dma 2 = preemptionExample.dmac.dma 2 ∧
    (Write preemptionExample.dmac 0 11 0x80).run_set.testBit 2
      = preemptionExample.dmac.run_set.testBit 2 := by
  have h := write_channel_independence preemptionExample.dmac 0 2 11 0x80 (by decide)
    (by decide)
  exact ⟨by decide, h.1, h.2.2.2.1⟩

/-! ## C15 -/

theorem RunCompletion_irq_if {M : Type} (cpu : CPU M) (sys : System M) (d : Nat) :
    (RunCompletion cpu sys d).irq_if =
      (if (sys.dmac.dma sys.dmac.current.toNat).interrupt = true
       then sys.irq_if ||| (cpu.INT_DMA0 <<< sys.dmac.current.toNat) else sys.irq_if) := rfl

theorem Run_of_not_completed {M : Type} (cpu : CPU M) (sys : System M)
    (h : (RunBurst cpu sys).completed = false) :
    Run cpu sys = storeBurst sys (RunBurst cpu sys) := by
  unfold Run
  simp only [h, Bool.false_eq_true, if_false]

/-- The interrupt flag register after a Run call, in both outcomes of the loop. -/
theorem Run_irq_if {M : Type} (cpu : CPU M) (sys : System M) (c : Nat)
    (hc : c < 4) (hcur : sys.dmac.current = (c : Int)) :
    (Run cpu sys).irq_if =
      (if (RunBurst cpu sys).completed = true ∧ (sys.dmac.dma c).interrupt = true
       then sys.irq_if ||| (cpu.INT_DMA0 <<< c) else sys.irq_if) := by
  have hct : sys.dmac.current.toNat = c := by rw [hcur, Int.toNat_ofNat]
  cases hdone : (RunBurst cpu sys).completed with
  | false =>
    rw [Run_of_not_completed cpu sys hdone]
    simp
  | true =>
    rw [Run_of_completed cpu sys hdone, RunCompletion_irq_if, storeBurst_current, hct,
      storeBurst_irq_if]
    have hd := storeBurst_dma_same sys (RunBurst cpu sys) (by rw [hct]; exact hc)
    rw [hct] at hd
    rw [hd]
    simp

/-- C15: when a Run call reaches natural completion for the current channel c, the
interrupt flag register becomes old | (INT_DMA0 << c) if channel c's interrupt flag is
set and is unchanged if it is not; when Run returns early (budget exhausted or
interleaved observed) the register is unchanged; in every case each bit set before the
call is set after it. -/
theorem interrupt_signalling {M : Type} (cpu : CPU M) (sys : System M) (c : Nat)
    (hc : c < 4) (hcur : sys.dmac.current = (c : Int)) :
    ((RunBurst cpu sys).completed = true →
      (Run cpu sys).irq_if =
        (if (sys.dmac.dma c).interrupt = true
         then sys.irq_if ||| (cpu.INT_DMA0 <<< c) else sys.irq_if)) ∧
    ((RunBurst cpu sys).completed = false → (Run cpu sys).irq_if = sys.irq_if) ∧
    (∀ j, sys.irq_if.testBit j = true → (Run cpu sys).irq_if.testBit j = true) := by
  have h := Run_irq_if cpu sys c hc hcur
  refine ⟨?_, ?_, ?_⟩
  · intro hdone
    rw [h]
    simp [hdone]
  · intro hdone
    rw [h]
    simp [hdone]
  · intro j hj
    rw [h]
    split_ifs
    · rw [Nat.testBit_or, hj]
      rfl
    · exact hj

/-- Channel 2 completing a one-unit burst with its interrupt flag set: bit 2 above
INT_DMA0 = 0x100 is raised in the empty register. -/
theorem interrupt_signalling_witness :
    (2 < 4 ∧ interruptExample.dmac.current = ((2 : Nat) : Int) ∧
      (RunBurst demoCPU interruptExample).completed = true ∧
      (interruptExample.dmac.dma 2).interrupt = true ∧ interruptExample.irq_if = 0) ∧
    (Run demoCPU interruptExample).irq_if = 0x400 := by
  have h := interrupt_signalling demoCPU interruptExample 2 (by decide) (by decide)
  exact ⟨by decide, (h.1 (by decide)).trans (by decide)⟩

/-! ## Byte lanes of a register -/

theorem testBit_255 (i : Nat) : (255 : Nat).testBit i = decide (i < 8) := by
  have h : (255 : Nat) = 2 ^ 8 - 1 := rfl
  rw [h, Nat.testBit_two_pow_sub_one]

theorem byte_testBit_high (v i : Nat) (hv : v < 256) (hi : 8 ≤ i) : v.testBit i = false := by
  apply Nat.testBit_lt_two_pow
  calc v < 2 ^ 8 := hv
    _ ≤ 2 ^ i := Nat.pow_le_pow_right (by norm_num) hi

theorem testBit_byteLane (r k i : Nat) :
    (byteLane r k).testBit i = (decide (i < 8) && r.testBit (8 * k + i)) := by
  unfold byteLane
  have h : (256 : Nat) = 2 ^ 8 := rfl
  rw [h, Nat.testBit_mod_two_pow, Nat.testBit_shiftRight]

theorem testBit_setLane (w s v r i : Nat) :
    (setLane w s v r).testBit i =
      (decide (i < w) &&
        ((r.testBit i && (decide (i < w) ^^ (decide (s ≤ i) && decide (i - s < 8)))) ||
         (decide (s ≤ i) && v.testBit (i - s)))) := by
  unfold setLane
  rw [Nat.testBit_mod_two_pow, Nat.testBit_or, Nat.testBit_and, Nat.testBit_xor,
    Nat.testBit_two_pow_sub_one, Nat.testBit_shiftLeft, Nat.testBit_shiftLeft, testBit_255]

/-- The lane written holds the byte written. -/
theorem byteLane_setLane_same (w k v r : Nat) (hw : 8 * k + 8 ≤ w) (hv : v < 256) :
    byteLane (setLane w (8 * k) v r) k = v := by
  apply Nat.eq_of_testBit_eq
  intro i
  rw [testBit_byteLane, testBit_setLane]
  by_cases hi : i < 8
  · have h1 : 8 * k + i < w := by omega
    have h2 : 8 * k ≤ 8 * k + i := by omega
    have h3 : 8 * k + i - 8 * k = i := by omega
    simp [hi, h1, h2, h3]
  · rw [byte_testBit_high v i hv (by omega)]
    simp [hi]

/-- Every other lane inside the register is as before. -/
theorem byteLane_setLane_other (w k j v r : Nat) (hw : 8 * j + 8 ≤ w) (hne : j ≠ k)
    (hv : v < 256) :
    byteLane (setLane w (8 * k) v r) j = byteLane r j := by
  apply Nat.eq_of_testBit_eq
  intro i
  rw [testBit_byteLane, testBit_setLane, testBit_byteLane]
  by_cases hi : i < 8
  · have h1 : 8 * j + i < w := by omega
    by_cases hjk : j < k
    · have h2 : ¬ (8 * k ≤ 8 * j + i) := by omega
      simp [hi, h1, h2]
    · have h2 : 8 * k ≤ 8 * j + i := by omega
      have h3 : ¬ (8 * j + i - 8 * k < 8) := by omega
      have h4 : v.testBit (8 * j + i - 8 * k) = false :=
        byte_testBit_high v _ hv (by omega)
      simp [hi, h1, h2, h3, h4]
  · simp [hi]

theorem setLane_lt (w s v r : Nat) : setLane w s v r < 2 ^ w := by
  unfold setLane
  exact Nat.mod_lt _ (by positivity)

/-- A 32-bit value is the little-endian sum of its four byte lanes. -/
theorem eq_sum_byteLanes32 (r : Nat) (h : r < 2 ^ 32) :
    r = byteLane r 0 + 2 ^ 8 * byteLane r 1 + 2 ^ 16 * byteLane r 2 + 2 ^ 24 * byteLane r 3 := by
  unfold byteLane
  simp only [Nat.shiftRight_eq_div_pow]
  norm_num at h ⊢
  omega

/-- A 16-bit value is the little-endian sum of its two byte lanes. -/
theorem eq_sum_byteLanes16 (r : Nat) (h : r < 2 ^ 16) :
    r = byteLane r 0 + 2 ^ 8 * byteLane r 1 := by
  unfold byteLane
  simp only [Nat.shiftRight_eq_div_pow]
  norm_num at h ⊢
  omega

/-- Cases 0 to 3 of `Write` update one byte lane of `src_addr`. -/
theorem Write_src_lane (s : DMAController) (id k v : Nat) (hk : k < 4) :
    Write s id k v =
      s.setDma id { (s.dma id) with src_addr := setLane 32 (8 * k) v (s.dma id).src_addr } := by
  interval_cases k <;> rfl

/-- Cases 4 to 7 of `Write` update one byte lane of `dst_addr`. -/
theorem Write_dst_lane (s : DMAController) (id k v : Nat) (hk : k < 4) :
    Write s id (4 + k) v =
      s.setDma id { (s.dma id) with dst_addr := setLane 32 (8 * k) v (s.dma id).dst_addr } := by
  interval_cases k <;> rfl

/-- Cases 8 and 9 of `Write` update one byte lane of `length`. -/
theorem Write_length_lane (s : DMAController) (id k v : Nat) (hk : k < 2) :
    Write s id (8 + k) v =
      s.setDma id { (s.dma id) with length := setLane 16 (8 * k) v (s.dma id).length } := by
  interval_cases k <;> rfl

/-- The lane read after one lane update. -/
theorem byteLane_setLane (w o k v r : Nat) (hw : 8 * k + 8 ≤ w) (hv : v < 256) :
    byteLane (setLane w (8 * o) v r) k = if k = o then v else byteLane r k := by
  split_ifs with h
  · subst h
    exact byteLane_setLane_same w k v r hw hv
  · exact byteLane_setLane_other w o k v r hw h hv

/-- After four lane updates that cover lane `k`, the lane holds the byte of the last
update made to it. -/
theorem last_write_wins (b : Nat → Nat) (o0 o1 o2 o3 k y : Nat)
    (hk : k = o0 ∨ k = o1 ∨ k = o2 ∨ k = o3) :
    (if k = o3 then b o3 else if k = o2 then b o2 else if k = o1 then b o1
      else if k = o0 then b o0 else y) = b k := by
  split_ifs with h3 h2 h1 h0
  · rw [h3]
  · rw [h2]
  · rw [h1]
  · rw [h0]
  · rcases hk with h | h | h | h <;> contradiction

/-- Four lane updates of a 32-bit register at the offsets `o0 .. o3`, a permutation of
0..3, with the bytes `b o0 .. b o3`, give the little-endian value of `b 0 .. b 3`. -/
theorem four_lanes_assemble (b : Nat → Nat) (o0 o1 o2 o3 x : Nat)
    (hb : ∀ k, k < 4 → b k < 256) (hperm : [o0, o1, o2, o3].Perm [0, 1, 2, 3]) :
    setLane 32 (8 * o3) (b o3) (setLane 32 (8 * o2) (b o2)
      (setLane 32 (8 * o1) (b o1) (setLane 32 (8 * o0) (b o0) x)))
      = b 0 + 2 ^ 8 * b 1 + 2 ^ 16 * b 2 + 2 ^ 24 * b 3 := by
  have hmem : ∀ k, k ∈ [o0, o1, o2, o3] ↔ k ∈ [0, 1, 2, 3] := fun k => hperm.mem_iff
  have ho : ∀ o, o ∈ [o0, o1, o2, o3] → o < 4 := by
    intro o h
    have h2 := (hmem o).mp h
    simp at h2
    omega
  have h0 := ho o0 (by simp)
  have h1 := ho o1 (by simp)
  have h2 := ho o2 (by simp)
  have h3 := ho o3 (by simp)
  have hcov : ∀ k, k < 4 → (k = o0 ∨ k = o1 ∨ k = o2 ∨ k = o3) := by
    intro k hk
    have h : k ∈ [o0, o1, o2, o3] := (hmem k).mpr (by simp; omega)
    simpa using h
  have hlane : ∀ k, k < 4 →
      byteLane (setLane 32 (8 * o3) (b o3) (setLane 32 (8 * o2) (b o2)
        (setLane 32 (8 * o1) (b o1) (setLane 32 (8 * o0) (b o0) x)))) k = b k := by
    intro k hk
    rw [byteLane_setLane _ _ _ _ _ (by omega) (hb o3 h3),
      byteLane_setLane _ _ _ _ _ (by omega) (hb o2 h2),
      byteLane_setLane _ _ _ _ _ (by omega) (hb o1 h1),
      byteLane_setLane _ _ _ _ _ (by omega) (hb o0 h0)]
    exact last_write_wins b o0 o1 o2 o3 k _ (hcov k hk)
  rw [eq_sum_byteLanes32 _ (setLane_lt 32 _ _ _), hlane 0 (by omega), hlane 1 (by omega),
    hlane 2 (by omega), hlane 3 (by omega)]

/-- Two lane updates of a 16-bit register at the offsets 0 and 1, in either order. -/
theorem two_lanes_assemble (b0 b1 x : Nat) (h0 : b0 < 256) (h1 : b1 < 256) :
    setLane 16 (8 * 1) b1 (setLane 16 (8 * 0) b0 x) = b0 + 2 ^ 8 * b1 ∧
    setLane 16 (8 * 0) b0 (setLane 16 (8 * 1) b1 x) = b0 + 2 ^ 8 * b1 := by
  constructor
  · rw [eq_sum_byteLanes16 _ (setLane_lt 16 _ _ _),
      byteLane_setLane 16 1 0 b1 _ (by omega) h1, byteLane_setLane 16 0 0 b0 _ (by omega) h0,
      byteLane_setLane 16 1 1 b1 _ (by omega) h1]
    simp
  · rw [eq_sum_byteLanes16 _ (setLane_lt 16 _ _ _),
      byteLane_setLane 16 0 0 b0 _ (by omega) h0, byteLane_setLane 16 0 1 b0 _ (by omega) h0,
      byteLane_setLane 16 1 1 b1 _ (by omega) h1]
    simp

/-! ## C12 -/

/-- C12: for a channel id in 0..3, any prior state and bytes b 0 .. b 3: writing them to
offsets 0..3 in any order o0, o1, o2, o3 gives src_addr = b0 + 2^8*b1 + 2^16*b2 +
2^24*b3; writing them to offsets 4..7 in any order gives that value in dst_addr;
writing b0 and b1 to offsets 8 and 9 in either order gives length = b0 + 2^8*b1; and a
single write of a byte v to offset k of a register sets byte lane k of that register
to v, keeps its other lanes, and changes nothing else in the controller (the result is
the prior state with that one register of channel id replaced). -/
theorem register_assembly (s : DMAController) (id : Nat) (b : Nat → Nat)
    (o0 o1 o2 o3 : Nat) (hid : id < 4) (hb : ∀ k, k < 4 → b k < 256)
    (hperm : [o0, o1, o2, o3].Perm [0, 1, 2, 3]) :
    ((Write (Write (Write (Write s id o0 (b o0)) id o1 (b o1)) id o2 (b o2)) id o3
        (b o3)).dma id).src_addr = b 0 + 2 ^ 8 * b 1 + 2 ^ 16 * b 2 + 2 ^ 24 * b 3 ∧
    ((Write (Write (Write (Write s id (4 + o0) (b o0)) id (4 + o1) (b o1)) id (4 + o2) (b o2))
        id (4 + o3) (b o3)).dma id).dst_addr
      = b 0 + 2 ^ 8 * b 1 + 2 ^ 16 * b 2 + 2 ^ 24 * b 3 ∧
    ((Write (Write s id 8 (b 0)) id 9 (b 1)).dma id).length = b 0 + 2 ^ 8 * b 1 ∧
    ((Write (Write s id 9 (b 1)) id 8 (b 0)).dma id).length = b 0 + 2 ^ 8 * b 1 ∧
    (∀ k v, k < 4 → v < 256 →
      byteLane ((Write s id k v).dma id).src_addr k = v ∧
      (∀ j, j < 4 → j ≠ k →
        byteLane ((Write s id k v).dma id).src_addr j = byteLane (s.dma id).src_addr j) ∧
      Write s id k v =
        s.setDma id { (s.dma id) with src_addr := ((Write s id k v).dma id).src_addr }) ∧
    (∀ k v, k < 4 → v < 256 →
      byteLane ((Write s id (4 + k) v).dma id).dst_addr k = v ∧
      (∀ j, j < 4 → j ≠ k →
        byteLane ((Write s id (4 + k) v).dma id).dst_addr j = byteLane (s.dma id).dst_addr j) ∧
      Write s id (4 + k) v =
        s.setDma id { (s.dma id) with dst_addr := ((Write s id (4 + k) v).dma id).dst_addr }) ∧
    (∀ k v, k < 2 → v < 256 →
      byteLane ((Write s id (8 + k) v).dma id).length k = v ∧
      (∀ j, j < 2 → j ≠ k →
        byteLane ((Write s id (8 + k) v).dma id).length j = byteLane (s.dma id).length j) ∧
      Write s id (8 + k) v =
        s.setDma id { (s.dma id) with length := ((Write s id (8 + k) v).dma id).length }) := by
  have hmem : ∀ o, o ∈ [o0, o1, o2, o3] → o < 4 := by
    intro o h
    have h2 := hperm.mem_iff.mp h
    simp at h2
    omega
  have h0 := hmem o0 (by simp)
  have h1 := hmem o1 (by simp)
  have h2 := hmem o2 (by simp)
  have h3 := hmem o3 (by simp)
  refine ⟨?_, ?_, ?_, ?_, ?_, ?_, ?_⟩
  · rw [Write_src_lane _ _ _ _ h3, Write_src_lane _ _ _ _ h2, Write_src_lane _ _ _ _ h1,
      Write_src_lane _ _ _ _ h0]
    simp only [dma_setDma_same _ _ _ hid]
    exact four_lanes_assemble b o0 o1 o2 o3 _ hb hperm
  · rw [Write_dst_lane _ _ _ _ h3, Write_dst_lane _ _ _ _ h2, Write_dst_lane _ _ _ _ h1,
      Write_dst_lane _ _ _ _ h0]
    simp only [dma_setDma_same _ _ _ hid]
    exact four_lanes_assemble b o0 o1 o2 o3 _ hb hperm
  · have e8 := Write_length_lane s id 0 (b 0) (by omega)
    have e9 := Write_length_lane (Write s id 8 (b 0)) id 1 (b 1) (by omega)
    rw [show 8 + 1 = 9 from rfl] at e9
    rw [show 8 + 0 = 8 from rfl] at e8
    rw [e9, e8]
    simp only [dma_setDma_same _ _ _ hid]
    exact (two_lanes_assemble (b 0) (b 1) _ (hb 0 (by omega)) (hb 1 (by omega))).1
  · have e9 := Write_length_lane s id 1 (b 1) (by omega)
    have e8 := Write_length_lane (Write s id 9 (b 1)) id 0 (b 0) (by omega)
    rw [show 8 + 1 = 9 from rfl] at e9
    rw [show 8 + 0 = 8 from rfl] at e8
    rw [e8, e9]
    simp only [dma_setDma_same _ _ _ hid]
    exact (two_lanes_assemble (b 0) (b 1) _ (hb 0 (by omega)) (hb 1 (by omega))).2
  · intro k v hk hv
    rw [Write_src_lane _ _ _ _ hk]
    simp only [dma_setDma_same _ _ _ hid]
    exact ⟨byteLane_setLane_same 32 k v _ (by omega) hv,
      fun j hj hjk => byteLane_setLane_other 32 k j v _ (by omega) hjk hv, trivial⟩
  · intro k v hk hv
    rw [Write_dst_lane _ _ _ _ hk]
    simp only [dma_setDma_same _ _ _ hid]
    exact ⟨byteLane_setLane_same 32 k v _ (by omega) hv,
      fun j hj hjk => byteLane_setLane_other 32 k j v _ (by omega) hjk hv, trivial⟩
  · intro k v hk hv
    rw [Write_length_lane _ _ _ _ hk]
    simp only [dma_setDma_same _ _ _ hid]
    exact ⟨byteLane_setLane_same 16 k v _ (by omega) hv,
      fun j hj hjk => byteLane_setLane_other 16 k j v _ (by omega) hjk hv, trivial⟩

/-- The bytes of 0x12345678 written to channel 1 in the order 2, 0, 3, 1. -/
theorem register_assembly_witness :
    (1 < 4 ∧ (∀ k, k < 4 → exampleBytes k < 256) ∧ [2, 0, 3, 1].Perm [0, 1, 2, 3]) ∧
    ((Write (Write (Write (Write Reset 1 2 (exampleBytes 2)) 1 0 (exampleBytes 0)) 1 3
        (exampleBytes 3)) 1 1 (exampleBytes 1)).dma 1).src_addr = 0x12345678 :=
  ⟨by decide,
    (register_assembly Reset 1 exampleBytes 2 0 3 1 (by decide) (by decide) (by decide)).1.trans
      (by decide)⟩

/-! ## Effect of the operations on the scheduling state -/

theorem setDma_out_of_range (s : DMAController) (c : Nat) (d : DMA) (hc : ¬ c < 4) :
    s.setDma c d = s := by
  unfold DMAController.setDma
  split
  all_goals first
    | rfl
    | (exfalso; omega)

theorem dma_setDma (s : DMAController) (c : Nat) (d : DMA) (j : Nat) :
    (s.setDma c d).dma j = if c = j ∧ c < 4 then d else s.dma j := by
  by_cases hc : c < 4
  · by_cases hj : c = j
    · subst hj
      simp [hc, dma_setDma_same _ _ _ hc]
    · simp [hj, dma_setDma_other _ _ _ _ hj]
  · simp [hc, setDma_out_of_range _ _ _ hc]

@[simp] theorem storeBurst_hblank_set {M : Type} (sys : System M) (b : Burst M) :
    (storeBurst sys b).dmac.hblank_set = sys.dmac.hblank_set := by
  simp [storeBurst]

@[simp] theorem storeBurst_vblank_set {M : Type} (sys : System M) (b : Burst M) :
    (storeBurst sys b).dmac.vblank_set = sys.dmac.vblank_set := by
  simp [storeBurst]

theorem storeBurst_dma {M : Type} (sys : System M) (b : Burst M) (j : Nat) :
    (storeBurst sys b).dmac.dma j =
      if sys.dmac.current.toNat = j ∧ sys.dmac.current.toNat < 4 then
        { (sys.dmac.dma sys.dmac.current.toNat) with
          internal := { length := b.length, dst_addr := b.dst_addr, src_addr := b.src_addr } }
      else sys.dmac.dma j := by
  unfold storeBurst
  simp only [dma_with_interleaved, dma_setDma]

/-- The fields of `RunCompletion` that do not depend on the repeat flag. -/
theorem RunCompletion_sched {M : Type} (cpu : CPU M) (sys : System M) (d : Nat) :
    (RunCompletion cpu sys d).dmac.hblank_set = sys.dmac.hblank_set ∧
    (RunCompletion cpu sys d).dmac.vblank_set = sys.dmac.vblank_set ∧
    (RunCompletion cpu sys d).dmac.interleaved = sys.dmac.interleaved ∧
    ((RunCompletion cpu sys d).dmac.run_set = sys.dmac.run_set ∨
     (RunCompletion cpu sys d).dmac.run_set
       = sys.dmac.run_set &&& bitNot32 (1 <<< sys.dmac.current.toNat)) ∧
    (RunCompletion cpu sys d).dmac.current =
      (if (RunCompletion cpu sys d).dmac.run_set > 0
       then g_dma_from_bitset.getD (RunCompletion cpu sys d).dmac.run_set (-1)
       else sys.dmac.current) := by
  unfold RunCompletion
  simp only
  split_ifs <;> simp

/-- The record of a channel after `RunCompletion`: the timing is as before, and a
channel other than the current one is untouched. -/
theorem RunCompletion_dma_frame {M : Type} (cpu : CPU M) (sys : System M) (d : Nat) (j : Nat) :
    ((RunCompletion cpu sys d).dmac.dma j).time = (sys.dmac.dma j).time ∧
    (sys.dmac.current.toNat ≠ j → (RunCompletion cpu sys d).dmac.dma j = sys.dmac.dma j) := by
  cases hrep : (sys.dmac.dma sys.dmac.current.toNat).repeat_ with
  | false =>
    rw [(RunCompletion_no_repeat cpu sys d hrep).2 j, dma_setDma]
    split_ifs with h
    · obtain ⟨h1, -⟩ := h
      rw [← h1]
      exact ⟨rfl, fun hne => absurd rfl hne⟩
    · exact ⟨rfl, fun _ => rfl⟩
  | true =>
    rw [(RunCompletion_repeat cpu sys d hrep).2 j, dma_setDma]
    by_cases h : sys.dmac.current.toNat = j ∧ sys.dmac.current.toNat < 4
    · rw [if_pos h]
      obtain ⟨h1, -⟩ := h
      rw [← h1]
      exact ⟨rfl, fun hne => absurd rfl hne⟩
    · rw [if_neg h]
      exact ⟨rfl, fun _ => rfl⟩

theorem storeBurst_dma_frame {M : Type} (sys : System M) (b : Burst M) (j : Nat) :
    ((storeBurst sys b).dmac.dma j).time = (sys.dmac.dma j).time ∧
    (sys.dmac.current.toNat ≠ j → (storeBurst sys b).dmac.dma j = sys.dmac.dma j) := by
  rw [storeBurst_dma]
  split_ifs with h
  · obtain ⟨h1, -⟩ := h
    rw [← h1]
    exact ⟨rfl, fun hne => absurd rfl hne⟩
  · exact ⟨rfl, fun _ => rfl⟩

/-- The controller after `Run`: the trigger sets and every channel's timing are
untouched, and so is the whole record of a channel other than the current one. -/
theorem Run_frame {M : Type} (cpu : CPU M) (sys : System M) :
    (Run cpu sys).dmac.hblank_set = sys.dmac.hblank_set ∧
    (Run cpu sys).dmac.vblank_set = sys.dmac.vblank_set ∧
    ∀ j, ((Run cpu sys).dmac.dma j).time = (sys.dmac.dma j).time ∧
      (sys.dmac.current.toNat ≠ j → (Run cpu sys).dmac.dma j = sys.dmac.dma j) := by
  cases hdone : (RunBurst cpu sys).completed with
  | false =>
    rw [Run_of_not_completed cpu sys hdone]
    exact ⟨by simp, by simp, fun j => storeBurst_dma_frame sys _ j⟩
  | true =>
    rw [Run_of_completed cpu sys hdone]
    obtain ⟨hh, hv, -, -, -⟩ := RunCompletion_sched cpu (storeBurst sys (RunBurst cpu sys))
      (sys.dmac.dma sys.dmac.current.toNat).dst_cntl
    refine ⟨by rw [hh]; simp, by rw [hv]; simp, fun j => ?_⟩
    obtain ⟨h1, h2⟩ := RunCompletion_dma_frame cpu (storeBurst sys (RunBurst cpu sys))
      (sys.dmac.dma sys.dmac.current.toNat).dst_cntl j
    obtain ⟨h3, h4⟩ := storeBurst_dma_frame sys (RunBurst cpu sys) j
    rw [storeBurst_current] at h2
    exact ⟨h1.trans h3, fun hne => (h2 hne).trans (h4 hne)⟩

/-! ## The trigger sets -/

theorem updateBlankSets_sets (s : DMAController) (id t : Nat) :
    (updateBlankSets s id t).hblank_set =
      (if t = DMA_HBLANK then s.hblank_set ||| (1 <<< id)
       else s.hblank_set &&& bitNot32 (1 <<< id)) ∧
    (updateBlankSets s id t).vblank_set =
      (if t = DMA_VBLANK then s.vblank_set ||| (1 <<< id)
       else s.vblank_set &&& bitNot32 (1 <<< id)) := by
  have e1 : ¬ (DMA_HBLANK = DMA_VBLANK) := by decide
  have e2 : ¬ (DMA_VBLANK = DMA_HBLANK) := by decide
  unfold updateBlankSets
  by_cases h1 : t = DMA_HBLANK
  · subst h1
    simp [e1]
  · by_cases h2 : t = DMA_VBLANK
    · subst h2
      simp [e2]
    · simp [h1, h2]

theorem Write11_blank_sets (s : DMAController) (id v : Nat) :
    (Write11 s id v).hblank_set =
      (if (v >>> 4) &&& 3 = DMA_HBLANK then s.hblank_set ||| (1 <<< id)
       else s.hblank_set &&& bitNot32 (1 <<< id)) ∧
    (Write11 s id v).vblank_set =
      (if (v >>> 4) &&& 3 = DMA_VBLANK then s.vblank_set ||| (1 <<< id)
       else s.vblank_set &&& bitNot32 (1 <<< id)) := by
  have hh : (Write11 s id v).hblank_set
      = (updateBlankSets s id ((v >>> 4) &&& 3)).hblank_set := by
    unfold Write11
    simp only
    split_ifs <;>
      simp [(updateBlankSets_sets _ _ _).1]
  have hv : (Write11 s id v).vblank_set
      = (updateBlankSets s id ((v >>> 4) &&& 3)).vblank_set := by
    unfold Write11
    simp only
    split_ifs <;>
      simp [(updateBlankSets_sets _ _ _).2]
  rw [hh, hv]
  exact updateBlankSets_sets s id _

theorem one_shiftLeft_lt_16 (id : Nat) (hid : id < 4) : 1 <<< id < 2 ^ 4 := by
  interval_cases id <;> decide

theorem set_bit_lt_16 (x id : Nat) (hx : x < 16) (hid : id < 4) : x ||| (1 <<< id) < 16 :=
  Nat.or_lt_two_pow (n := 4) hx (one_shiftLeft_lt_16 id hid)

theorem clear_bit_lt_16 (x m : Nat) (hx : x < 16) : x &&& m < 16 :=
  lt_of_le_of_lt Nat.and_le_left hx

/-- Bit `j` of a set after the update of bit `id` in `Write`, case 11. -/
theorem blank_bit_update (x id j : Nat) (c : Prop) [Decidable c] (hid : id < 32) (hj : j < 32) :
    (if c then x ||| (1 <<< id) else x &&& bitNot32 (1 <<< id)).testBit j =
      (if j = id then decide c else x.testBit j) := by
  by_cases hji : j = id
  · subst hji
    by_cases hc : c
    · simp [hc, set_bit_self]
    · simp [hc, clear_bit_self _ _ hid]
  · by_cases hc : c
    · simp [hc, hji, set_bit_other _ _ _ hji]
    · simp [hc, hji, clear_bit_other _ _ _ hji hj]

theorem BlankInv_Reset : BlankInv Reset := by
  refine ⟨by decide, by decide, ?_⟩
  intro i hi
  interval_cases i <;> decide

theorem BlankInv_of_frame (s s2 : DMAController) (h : BlankInv s)
    (hh : s2.hblank_set = s.hblank_set) (hv : s2.vblank_set = s.vblank_set)
    (ht : ∀ j, (s2.dma j).time = (s.dma j).time) : BlankInv s2 := by
  obtain ⟨h1, h2, h3⟩ := h
  refine ⟨by rw [hh]; exact h1, by rw [hv]; exact h2, ?_⟩
  intro i hi
  rw [hh, hv, ht i]
  exact h3 i hi

theorem BlankInv_Write (s : DMAController) (id offset v : Nat) (hid : id < 4)
    (h : BlankInv s) : BlankInv (Write s id offset v) := by
  by_cases h11 : offset = 11
  · subst h11
    obtain ⟨h1, h2, h3⟩ := h
    obtain ⟨eh, ev⟩ := Write11_blank_sets s id v
    rw [Write_eleven]
    refine ⟨?_, ?_, ?_⟩
    · rw [eh]
      split_ifs
      · exact set_bit_lt_16 _ _ h1 hid
      · exact clear_bit_lt_16 _ _ h1
    · rw [ev]
      split_ifs
      · exact set_bit_lt_16 _ _ h2 hid
      · exact clear_bit_lt_16 _ _ h2
    · intro i hi
      rw [eh, ev, blank_bit_update _ _ _ _ (by omega) (by omega),
        blank_bit_update _ _ _ _ (by omega) (by omega)]
      by_cases hii : i = id
      · subst hii
        rw [Write11_dma_same _ _ _ hi]
        simp
      · rw [Write11_dma_other _ _ _ _ (Ne.symm hii)]
        simp only [hii, if_false]
        exact h3 i hi
  · obtain ⟨d, hd, -, hdt, -⟩ := Write_eq_setDma s id offset v h11
    rw [hd]
    apply BlankInv_of_frame s _ h (by simp) (by simp)
    intro j
    rw [dma_setDma]
    split_ifs with hc
    · rw [hdt, hc.1]
    · rfl

theorem BlankInv_Mark (s : DMAController) (id : Nat) (h : BlankInv s) :
    BlankInv (MarkDMAForExecution s id) :=
  BlankInv_of_frame s _ h (by simp) (by simp) (fun j => by rw [MarkDMAForExecution_dma])

theorem BlankInv_TriggerHBlankDMA (s : DMAController) (h : BlankInv s) :
    BlankInv (TriggerHBlankDMA s) := by
  unfold TriggerHBlankDMA
  simp only
  split_ifs
  · exact BlankInv_Mark s _ h
  · exact h

theorem BlankInv_TriggerVBlankDMA (s : DMAController) (h : BlankInv s) :
    BlankInv (TriggerVBlankDMA s) := by
  unfold TriggerVBlankDMA
  simp only
  split_ifs
  · exact BlankInv_Mark s _ h
  · exact h

theorem BlankInv_Run {M : Type} (cpu : CPU M) (sys : System M) (h : BlankInv sys.dmac) :
    BlankInv (Run cpu sys).dmac := by
  obtain ⟨hh, hv, hd⟩ := Run_frame cpu sys
  exact BlankInv_of_frame _ _ h hh hv (fun j => (hd j).1)

theorem BlankInv_of_Reachable {M : Type} (cpu : CPU M) (guarded : Bool) (sys : System M)
    (hr : Reachable cpu guarded sys) : BlankInv sys.dmac := by
  induction hr with
  | reset m irq_if => exact BlankInv_Reset
  | write id offset value hid hv _ ih => exact BlankInv_Write _ id offset value hid ih
  | hblank _ ih => exact BlankInv_TriggerHBlankDMA _ ih
  | vblank _ ih => exact BlankInv_TriggerVBlankDMA _ ih
  | run _ _ ih => exact BlankInv_Run cpu _ ih
  | env m irq_if _ ih => exact ih

theorem testBit_of_lt_16 (x i : Nat) (hx : x < 16) (hi : 4 ≤ i) : x.testBit i = false := by
  apply Nat.testBit_lt_two_pow
  calc x < 2 ^ 4 := hx
    _ ≤ 2 ^ i := Nat.pow_le_pow_right (by norm_num) hi

/-! ## C14 -/

/-- C14: for a channel id in 0..3, any prior state s and value v, after Write(id,11,v)
bit id of hblank_set is set iff the new timing is HBlank and bit id of vblank_set is
set iff the new timing is VBlank, and every other bit of both sets (below bit 32, the
width of a set in the embedding) is unchanged; and in every state reachable from Reset,
for every channel i, bit i of hblank_set (of vblank_set) is set exactly when channel
i's timing is HBlank (VBlank), and the two sets are disjoint. -/
theorem blank_set_membership {M : Type} (cpu : CPU M) (guarded : Bool) (sys : System M)
    (hr : Reachable cpu guarded sys) (s : DMAController) (id v : Nat) (hid : id < 4) :
    ((Write s id 11 v).hblank_set.testBit id = true ↔
      ((Write s id 11 v).dma id).time = DMA_HBLANK) ∧
    ((Write s id 11 v).vblank_set.testBit id = true ↔
      ((Write s id 11 v).dma id).time = DMA_VBLANK) ∧
    (∀ j, j < 32 → j ≠ id →
      (Write s id 11 v).hblank_set.testBit j = s.hblank_set.testBit j ∧
      (Write s id 11 v).vblank_set.testBit j = s.vblank_set.testBit j) ∧
    (∀ i, i < 4 →
      (sys.dmac.hblank_set.testBit i = true ↔ (sys.dmac.dma i).time = DMA_HBLANK) ∧
      (sys.dmac.vblank_set.testBit i = true ↔ (sys.dmac.dma i).time = DMA_VBLANK)) ∧
    sys.dmac.hblank_set &&& sys.dmac.vblank_set = 0 := by
  obtain ⟨eh, ev⟩ := Write11_blank_sets s id v
  obtain ⟨h1, h2, h3⟩ := BlankInv_of_Reachable cpu guarded sys hr
  refine ⟨?_, ?_, ?_, ?_, ?_⟩
  · rw [Write_eleven, eh, blank_bit_update _ _ _ _ (by omega) (by omega),
      Write11_dma_same _ _ _ hid]
    simp
  · rw [Write_eleven, ev, blank_bit_update _ _ _ _ (by omega) (by omega),
      Write11_dma_same _ _ _ hid]
    simp
  · intro j hj hne
    rw [Write_eleven, eh, ev, blank_bit_update _ _ _ _ (by omega) hj,
      blank_bit_update _ _ _ _ (by omega) hj]
    simp [hne]
  · intro i hi
    obtain ⟨a, b⟩ := h3 i hi
    rw [a, b]
    simp
  · apply Nat.eq_of_testBit_eq
    intro i
    rw [Nat.testBit_and, Nat.zero_testBit]
    by_cases hi : i < 4
    · obtain ⟨a, b⟩ := h3 i hi
      rw [a, b]
      by_cases ht : (sys.dmac.dma i).time = DMA_HBLANK
      · have : ¬ (sys.dmac.dma i).time = DMA_VBLANK := by rw [ht]; decide
        simp [this]
      · simp [ht]
    · rw [testBit_of_lt_16 _ i h1 (by omega)]
      rfl

/-- Channel 1 armed with HBlank timing from the reset state: the state is reachable,
bit 1 of hblank_set is set and the two sets are disjoint. -/
theorem blank_set_membership_witness :
    (Reachable demoCPU false hblankExample ∧ 1 < 4) ∧
    ((hblankExample.dmac.hblank_set.testBit 1 = true ↔
      (hblankExample.dmac.dma 1).time = DMA_HBLANK) ∧
     hblankExample.dmac.hblank_set &&& hblankExample.dmac.vblank_set = 0) := by
  have hr : Reachable demoCPU false hblankExample :=
    Reachable.write 1 11 0xA0 (by decide) (by decide) (Reachable.reset 100 0)
  have h := blank_set_membership demoCPU false hblankExample hr Reset 1 0xA0 (by decide)
  exact ⟨⟨hr, by decide⟩, (h.2.2.2.1 1 (by decide)).1, h.2.2.2.2⟩

/-! ## The priority table on 4-bit sets -/

theorem table_eq_lowestSetBit : ∀ r, r < 16 →
    g_dma_from_bitset.getD r (-1) = lowestSetBit r := by
  decide

theorem table_lowest : ∀ r, r < 16 → r ≠ 0 →
    ∃ i : Nat, i < 4 ∧ g_dma_from_bitset.getD r (-1) = (i : Int) ∧
      r.testBit i = true ∧ ∀ j : Nat, j < i → r.testBit j = false := by
  decide

/-- The table entry of a set with one more member. -/
theorem table_set_bit : ∀ r, r < 16 → ∀ id, id < 4 →
    g_dma_from_bitset.getD (r ||| (1 <<< id)) (-1) =
      (if r = 0 then (id : Int)
       else if (id : Int) < g_dma_from_bitset.getD r (-1) then (id : Int)
       else g_dma_from_bitset.getD r (-1)) := by
  decide

set_option synthInstance.maxSize 1000 in
set_option synthInstance.maxHeartbeats 200000 in
/-- The table entry of a non-empty subset `t` of `r` is a member of `r` that is not
below the entry of `r`. -/
theorem table_subset : ∀ r, r < 16 → ∀ t, t < 16 → t &&& r = t →
    0 ≤ g_dma_from_bitset.getD t (-1) →
    r ≠ 0 ∧
    ¬ (((g_dma_from_bitset.getD t (-1)).toNat : Int) < g_dma_from_bitset.getD r (-1)) ∧
    r.testBit (g_dma_from_bitset.getD t (-1)).toNat = true ∧
    r ||| (1 <<< (g_dma_from_bitset.getD t (-1)).toNat) = r := by
  decide

theorem and_and_self_left (r x : Nat) : (r &&& x) &&& r = r &&& x := by
  apply Nat.eq_of_testBit_eq
  intro i
  simp only [Nat.testBit_and]
  cases r.testBit i <;> cases x.testBit i <;> rfl

/-! ## The scheduling invariant -/

theorem with_run_set_self (s : DMAController) : { s with run_set := s.run_set } = s := rfl

/-- A trigger body for a set `x` of waiting channels, on a 4-bit `run_set`: the channel
selected is a member of `run_set`, so `run_set` is unchanged; only `current` and
`interleaved` can change, and nothing changes when `run_set` is empty or `current` is
the table entry of `run_set`. -/
theorem trigger_effect (s : DMAController) (x : Nat) (hr : s.run_set < 16) :
    (0 ≤ g_dma_from_bitset.getD (s.run_set &&& x) (-1) →
      s.run_set.testBit (g_dma_from_bitset.getD (s.run_set &&& x) (-1)).toNat = true) ∧
    (if g_dma_from_bitset.getD (s.run_set &&& x) (-1) ≥ 0
      then MarkDMAForExecution s (g_dma_from_bitset.getD (s.run_set &&& x) (-1)).toNat
      else s).run_set = s.run_set ∧
    ((s.run_set = 0 ∨ s.current = g_dma_from_bitset.getD s.run_set (-1)) →
      (if g_dma_from_bitset.getD (s.run_set &&& x) (-1) ≥ 0
        then MarkDMAForExecution s (g_dma_from_bitset.getD (s.run_set &&& x) (-1)).toNat
        else s) = s) := by
  have ht : s.run_set &&& x < 16 := lt_of_le_of_lt Nat.and_le_left hr
  have hsub := table_subset s.run_set hr (s.run_set &&& x) ht (and_and_self_left _ _)
  by_cases hd : 0 ≤ g_dma_from_bitset.getD (s.run_set &&& x) (-1)
  · obtain ⟨h0, hlt, hmem, hor⟩ := hsub hd
    have hge : g_dma_from_bitset.getD (s.run_set &&& x) (-1) ≥ 0 := hd
    simp only [hge, if_true]
    refine ⟨fun _ => hmem, ?_, ?_⟩
    · rw [MarkDMAForExecution_run_set, hor]
    · intro hcur
      rcases hcur with hcur | hcur
      · exact absurd hcur h0
      · unfold MarkDMAForExecution
        rw [← hcur] at hlt
        simp only [h0, hlt, if_false, hor]
  · have hge : ¬ g_dma_from_bitset.getD (s.run_set &&& x) (-1) ≥ 0 := hd
    refine ⟨fun h => absurd h hd, ?_, ?_⟩
    · rw [if_neg hge]
    · intro _
      rw [if_neg hge]

theorem SchedInv_Reset : SchedInv Reset := by
  refine ⟨by decide, ?_⟩
  intro h
  exact absurd rfl h

theorem SchedInv_of_frame (s s2 : DMAController) (h : SchedInv s)
    (hr : s2.run_set = s.run_set) (hc : s2.current = s.current) : SchedInv s2 := by
  unfold SchedInv at h ⊢
  rw [hr, hc]
  exact h

theorem SchedInv_Mark (s : DMAController) (id : Nat) (hid : id < 4) (h : SchedInv s) :
    SchedInv (MarkDMAForExecution s id) := by
  obtain ⟨h1, h2⟩ := h
  have ht := table_set_bit s.run_set h1 id hid
  refine ⟨?_, ?_⟩
  · rw [MarkDMAForExecution_run_set]
    exact set_bit_lt_16 _ _ h1 hid
  · intro _
    rw [MarkDMAForExecution_run_set, ht]
    unfold MarkDMAForExecution
    by_cases h0 : s.run_set = 0
    · simp [h0]
    · rw [← h2 h0]
      by_cases hlt : (id : Int) < s.current
      · simp [h0, hlt]
      · simp [h0, hlt]

/-- A write to offset 11 either leaves the scheduling fields alone or ends in
`MarkDMAForExecution` on a state with the scheduling fields of the prior state. -/
theorem Write11_sched (s : DMAController) (id v : Nat) :
    ((Write11 s id v).run_set = s.run_set ∧ (Write11 s id v).current = s.current ∧
      (Write11 s id v).interleaved = s.interleaved) ∨
    (∃ s2 : DMAController, s2.run_set = s.run_set ∧ s2.current = s.current ∧
      s2.interleaved = s.interleaved ∧ Write11 s id v = MarkDMAForExecution s2 id ∧
      (!(s.dma id).enable && ((v &&& 128) != 0)) = true) := by
  unfold Write11
  simp only
  split_ifs with h1 h2
  · right
    exact ⟨_, by simp, by simp, by simp, rfl, h1⟩
  · left
    simp
  · left
    simp

theorem SchedInv_Write (s : DMAController) (id offset v : Nat) (hid : id < 4)
    (h : SchedInv s) : SchedInv (Write s id offset v) := by
  by_cases h11 : offset = 11
  · subst h11
    rw [Write_eleven]
    rcases Write11_sched s id v with ⟨hr, hc, -⟩ | ⟨s2, hr, hc, -, he, -⟩
    · exact SchedInv_of_frame s _ h hr hc
    · rw [he]
      exact SchedInv_Mark s2 id hid (SchedInv_of_frame s s2 h hr hc)
  · obtain ⟨d, hd, -⟩ := Write_eq_setDma s id offset v h11
    rw [hd]
    exact SchedInv_of_frame s _ h (by simp) (by simp)

theorem SchedInv_TriggerHBlankDMA (s : DMAController) (h : SchedInv s) :
    SchedInv (TriggerHBlankDMA s) := by
  have he : TriggerHBlankDMA s = s := by
    by_cases h0 : s.run_set = 0
    · exact (trigger_effect s s.hblank_set h.1).2.2 (Or.inl h0)
    · exact (trigger_effect s s.hblank_set h.1).2.2 (Or.inr (h.2 h0))
  rw [he]
  exact h

theorem SchedInv_TriggerVBlankDMA (s : DMAController) (h : SchedInv s) :
    SchedInv (TriggerVBlankDMA s) := by
  have he : TriggerVBlankDMA s = s := by
    by_cases h0 : s.run_set = 0
    · exact (trigger_effect s s.vblank_set h.1).2.2 (Or.inl h0)
    · exact (trigger_effect s s.vblank_set h.1).2.2 (Or.inr (h.2 h0))
  rw [he]
  exact h

theorem SchedInv_Run {M : Type} (cpu : CPU M) (sys : System M) (h : SchedInv sys.dmac) :
    SchedInv (Run cpu sys).dmac := by
  cases hdone : (RunBurst cpu sys).completed with
  | false =>
    rw [Run_of_not_completed cpu sys hdone]
    exact SchedInv_of_frame _ _ h (by simp) (by simp)
  | true =>
    rw [Run_of_completed cpu sys hdone]
    obtain ⟨-, -, -, hrs, hcur⟩ := RunCompletion_sched cpu (storeBurst sys (RunBurst cpu sys))
      (sys.dmac.dma sys.dmac.current.toNat).dst_cntl
    refine ⟨?_, ?_⟩
    · rcases hrs with e | e
      · rw [e, storeBurst_run_set]
        exact h.1
      · rw [e, storeBurst_run_set]
        exact clear_bit_lt_16 _ _ h.1
    · intro hne
      rw [hcur, if_pos (Nat.pos_of_ne_zero hne)]

theorem SchedInv_of_Reachable {M : Type} (cpu : CPU M) (guarded : Bool) (sys : System M)
    (hr : Reachable cpu guarded sys) : SchedInv sys.dmac := by
  induction hr with
  | reset m irq_if => exact SchedInv_Reset
  | write id offset value hid hv _ ih => exact SchedInv_Write _ id offset value hid ih
  | hblank _ ih => exact SchedInv_TriggerHBlankDMA _ ih
  | vblank _ ih => exact SchedInv_TriggerVBlankDMA _ ih
  | run _ _ ih => exact SchedInv_Run cpu _ ih
  | env m irq_if _ ih => exact ih

/-! ## C17 -/

/-- C17: in every state reachable from Reset by any sequence of Write (id in 0..3),
TriggerHBlankDMA, TriggerVBlankDMA and Run calls, whenever run_set is non-empty,
current is the lowest-numbered channel in run_set: it is a channel c in 0..3 whose bit
is set in run_set while no lower bit is (and run_set is a 4-bit set). -/
theorem priority_invariant {M : Type} (cpu : CPU M) (guarded : Bool) (sys : System M)
    (hr : Reachable cpu guarded sys) (hne : sys.dmac.run_set ≠ 0) :
    sys.dmac.run_set < 16 ∧
    sys.dmac.current = lowestSetBit sys.dmac.run_set ∧
    ∃ c : Nat, c < 4 ∧ sys.dmac.current = (c : Int) ∧ sys.dmac.run_set.testBit c = true ∧
      ∀ j : Nat, j < c → sys.dmac.run_set.testBit j = false := by
  obtain ⟨h1, h2⟩ := SchedInv_of_Reachable cpu guarded sys hr
  have hc := h2 hne
  refine ⟨h1, ?_, ?_⟩
  · rw [hc]
    exact table_eq_lowestSetBit _ h1
  · obtain ⟨i, hi, he, hb, hl⟩ := table_lowest _ h1 hne
    exact ⟨i, hi, hc.trans he, hb, hl⟩

/-- Channel 2 armed and then channel 0 armed, both Immediate: the state is reachable,
run_set is 0b0101 and current is 0. -/
theorem priority_invariant_witness :
    (Reachable demoCPU false priorityExample ∧ priorityExample.dmac.run_set ≠ 0) ∧
    priorityExample.dmac.run_set = 0b0101 ∧
    priorityExample.dmac.current = lowestSetBit 0b0101 ∧ lowestSetBit 0b0101 = 0 := by
  have hr : Reachable demoCPU false priorityExample :=
    Reachable.write 0 11 0x80 (by decide) (by decide)
      (Reachable.write 2 11 0x80 (by decide) (by decide) (Reachable.reset 100 0))
  have h := priority_invariant demoCPU false priorityExample hr (by decide)
  exact ⟨⟨hr, by decide⟩, by decide, h.2.1.trans (by decide), by decide⟩

/-! ## C18 -/

/-- C18: for every controller state whose run_set is a 4-bit value, TriggerHBlankDMA
and TriggerVBlankDMA leave run_set, hblank_set, vblank_set and every channel record
unchanged: the channel they select (if any) is already a member of run_set, and the
only fields they can change are current and interleaved; when run_set is empty or
current is already the lowest member of run_set they change nothing at all. -/
theorem triggers_keep_run_set (s : DMAController) (hr : s.run_set < 16) :
    (TriggerHBlankDMA s).run_set = s.run_set ∧
    (TriggerVBlankDMA s).run_set = s.run_set ∧
    (∀ j, (TriggerHBlankDMA s).dma j = s.dma j ∧ (TriggerVBlankDMA s).dma j = s.dma j) ∧
    TriggerHBlankDMA s =
      { s with current := (TriggerHBlankDMA s).current,
               interleaved := (TriggerHBlankDMA s).interleaved } ∧
    TriggerVBlankDMA s =
      { s with current := (TriggerVBlankDMA s).current,
               interleaved := (TriggerVBlankDMA s).interleaved } ∧
    (0 ≤ g_dma_from_bitset.getD (s.run_set &&& s.hblank_set) (-1) →
      s.run_set.testBit (g_dma_from_bitset.getD (s.run_set &&& s.hblank_set) (-1)).toNat
        = true) ∧
    (0 ≤ g_dma_from_bitset.getD (s.run_set &&& s.vblank_set) (-1) →
      s.run_set.testBit (g_dma_from_bitset.getD (s.run_set &&& s.vblank_set) (-1)).toNat
        = true) ∧
    ((s.run_set = 0 ∨ s.current = lowestSetBit s.run_set) →
      TriggerHBlankDMA s = s ∧ TriggerVBlankDMA s = s) := by
  obtain ⟨hm1, hr1, he1⟩ := trigger_effect s s.hblank_set hr
  obtain ⟨hm2, hr2, he2⟩ := trigger_effect s s.vblank_set hr
  have hd1 : ∀ j, (TriggerHBlankDMA s).dma j = s.dma j := by
    intro j
    unfold TriggerHBlankDMA
    simp only
    split_ifs
    · exact MarkDMAForExecution_dma s _ j
    · rfl
  have hd2 : ∀ j, (TriggerVBlankDMA s).dma j = s.dma j := by
    intro j
    unfold TriggerVBlankDMA
    simp only
    split_ifs
    · exact MarkDMAForExecution_dma s _ j
    · rfl
  have hh1 : (TriggerHBlankDMA s).hblank_set = s.hblank_set ∧
      (TriggerHBlankDMA s).vblank_set = s.vblank_set := by
    unfold TriggerHBlankDMA
    simp only
    split_ifs <;> simp
  have hh2 : (TriggerVBlankDMA s).hblank_set = s.hblank_set ∧
      (TriggerVBlankDMA s).vblank_set = s.vblank_set := by
    unfold TriggerVBlankDMA
    simp only
    split_ifs <;> simp
  have hrs1 : (TriggerHBlankDMA s).run_set = s.run_set := hr1
  have hrs2 : (TriggerVBlankDMA s).run_set = s.run_set := hr2
  refine ⟨hrs1, hrs2, fun j => ⟨hd1 j, hd2 j⟩, ?_, ?_, hm1, hm2, ?_⟩
  · have a0 := hd1 0
    have a1 := hd1 1
    have a2 := hd1 2
    have a3 := hd1 3
    simp only [DMAController.dma] at a0 a1 a2 a3
    cases hT : TriggerHBlankDMA s
    rw [hT] at hrs1 hh1 a0 a1 a2 a3
    simp only at hrs1 hh1 a0 a1 a2 a3
    cases s
    simp_all
  · have a0 := hd2 0
    have a1 := hd2 1
    have a2 := hd2 2
    have a3 := hd2 3
    simp only [DMAController.dma] at a0 a1 a2 a3
    cases hT : TriggerVBlankDMA s
    rw [hT] at hrs2 hh2 a0 a1 a2 a3
    simp only at hrs2 hh2 a0 a1 a2 a3
    cases s
    simp_all
  · intro hcur
    have hcur2 : s.run_set = 0 ∨ s.current = g_dma_from_bitset.getD s.run_set (-1) := by
      rcases hcur with h | h
      · exact Or.inl h
      · exact Or.inr (h.trans (table_eq_lowestSetBit _ hr).symm)
    exact ⟨he1 hcur2, he2 hcur2⟩

/-- The running channel 2 of `preemptionExample` (run_set = 0b0100, current = 2): both
triggers leave the controller as it is. -/
theorem triggers_keep_run_set_witness :
    (preemptionExample.dmac.run_set < 16 ∧
      preemptionExample.dmac.current = lowestSetBit preemptionExample.dmac.run_set) ∧
    TriggerHBlankDMA preemptionExample.dmac = preemptionExample.dmac ∧
    TriggerVBlankDMA preemptionExample.dmac = preemptionExample.dmac :=
  ⟨by decide,
    (triggers_keep_run_set preemptionExample.dmac (by decide)).2.2.2.2.2.2.2
      (Or.inr (by decide))⟩

/-! ## The latched lengths -/

theorem latchLength_bounds (length id : Nat) :
    1 ≤ latchLength length id ∧ latchLength length id ≤ g_dma_len_mask.getD id 0 + 1 := by
  unfold latchLength
  simp only
  have h : length &&& g_dma_len_mask.getD id 0 ≤ g_dma_len_mask.getD id 0 := Nat.and_le_right
  split_ifs with h0
  · omega
  · omega

/-- Accounting of the loop: every unit transferred takes one off the length and adds
two accesses to the log; a loop left by a return has length left. -/
theorem transferLoop_accounting {M : Type} (cpu : CPU M) (size : Nat) (sm dm : Int) :
    ∀ (n S D : Nat) (il : Bool) (m : M) (bus : List BusOp),
      (∃ k, k + (transferLoop cpu size sm dm n S D il m bus).length = n ∧
        (transferLoop cpu size sm dm n S D il m bus).bus.length = bus.length + 2 * k) ∧
      ((transferLoop cpu size sm dm n S D il m bus).completed = false →
        1 ≤ (transferLoop cpu size sm dm n S D il m bus).length) := by
  intro n
  induction n with
  | zero =>
    intro S D il m bus
    exact ⟨⟨0, rfl, rfl⟩, fun h => by simp [transferLoop] at h⟩
  | succ n ih =>
    intro S D il m bus
    unfold transferLoop
    by_cases hb : cpu.run_until m ≤ 0
    · simp only [hb, if_true]
      exact ⟨⟨0, by simp, by simp⟩, fun _ => by omega⟩
    · cases il with
      | true =>
        simp only [hb, if_false, if_true]
        exact ⟨⟨0, by simp, by simp⟩, fun _ => by omega⟩
      | false =>
        simp only [hb, if_false, Bool.false_eq_true]
        obtain ⟨⟨k, hk1, hk2⟩, hlen⟩ := ih (addWrap32 S sm) (addWrap32 D dm) false
          (cpu.writeUnit size (cpu.readUnit size m S).2 D (cpu.readUnit size m S).1)
          (bus ++ [BusOp.read size S, BusOp.write size D (cpu.readUnit size m S).1])
        refine ⟨⟨k + 1, by omega, ?_⟩, hlen⟩
        rw [hk2]
        simp
        omega

/-- Accounting of the first part of `Run`. -/
theorem RunBurst_accounting {M : Type} (cpu : CPU M) (sys : System M) :
    (∃ k, k + (RunBurst cpu sys).length
        = (sys.dmac.dma sys.dmac.current.toNat).internal.length ∧
      (RunBurst cpu sys).bus.length = sys.bus.length + 2 * k) ∧
    ((RunBurst cpu sys).completed = false → 1 ≤ (RunBurst cpu sys).length) := by
  unfold RunBurst
  simp only
  split_ifs
  · exact transferLoop_accounting cpu _ _ _ _ _ _ _ _ _
  · exact ⟨⟨0, by simp, by simp⟩, fun h => by simp at h⟩

theorem Run_bus {M : Type} (cpu : CPU M) (sys : System M) :
    (Run cpu sys).bus = (RunBurst cpu sys).bus := by
  unfold Run
  simp only
  split_ifs <;> simp

/-- The latched state of a channel after a write to offset 11. -/
theorem Write11_internal (s : DMAController) (id v i : Nat) (hi : i < 4) :
    ((Write11 s id v).dma i).internal = (s.dma i).internal ∨
    (i = id ∧ ((Write11 s id v).dma i).internal.length = latchLength (s.dma id).length id) := by
  by_cases hii : i = id
  · subst hii
    by_cases he : (!(s.dma i).enable && ((v &&& 128) != 0)) = true
    · refine Or.inr ⟨rfl, ?_⟩
      rw [Write11_dma_same _ _ _ hi]
      simp only [he, if_true]
    · refine Or.inl ?_
      rw [Write11_dma_same _ _ _ hi]
      simp [he]
  · left
    rw [Write11_dma_other _ _ _ _ (Ne.symm hii)]

/-- A member of `run_set` after a write to offset 11 was a member before, or is the
channel written and has just been latched. -/
theorem Write11_run_bit (s : DMAController) (id v i : Nat) (hid : id < 4)
    (h : (Write11 s id v).run_set.testBit i = true) :
    s.run_set.testBit i = true ∨
    (i = id ∧ ((Write11 s id v).dma i).internal.length = latchLength (s.dma id).length id) := by
  rcases Write11_sched s id v with ⟨hr, -, -⟩ | ⟨s2, hr, -, -, he, hedge⟩
  · left
    rw [hr] at h
    exact h
  · by_cases hii : i = id
    · subst hii
      refine Or.inr ⟨rfl, ?_⟩
      rw [Write11_dma_same _ _ _ hid]
      simp only [hedge, if_true]
    · left
      rw [he, MarkDMAForExecution_run_set, set_bit_other _ _ _ hii, hr] at h
      exact h

theorem WorkInv_Reset : WorkInv Reset := by
  intro i _ h
  have h0 : Reset.run_set = 0 := rfl
  rw [h0, Nat.zero_testBit] at h
  exact absurd h (by decide)

theorem WorkInv_Write (s : DMAController) (id offset v : Nat) (hid : id < 4)
    (h : WorkInv s) : WorkInv (Write s id offset v) := by
  intro i hi hbit
  by_cases h11 : offset = 11
  · subst h11
    rw [Write_eleven] at hbit ⊢
    rcases Write11_run_bit s id v i hid hbit with hold | ⟨hii, hl⟩
    · rcases Write11_internal s id v i hi with hsame | ⟨hii, hl⟩
      · rw [hsame]
        exact h i hi hold
      · rw [hl, hii]
        exact latchLength_bounds (s.dma id).length id
    · rw [hl, hii]
      exact latchLength_bounds (s.dma id).length id
  · obtain ⟨d, hd, hdi, -⟩ := Write_eq_setDma s id offset v h11
    rw [hd] at hbit ⊢
    rw [setDma_run_set] at hbit
    have hint : ((s.setDma id d).dma i).internal = (s.dma i).internal := by
      rw [dma_setDma]
      split_ifs with hc
      · rw [hdi, hc.1]
      · rfl
    rw [hint]
    exact h i hi hbit

theorem WorkInv_of_frame (s s2 : DMAController) (h : WorkInv s)
    (hr : s2.run_set = s.run_set) (hd : ∀ j, s2.dma j = s.dma j) : WorkInv s2 := by
  intro i hi hbit
  rw [hr] at hbit
  rw [hd i]
  exact h i hi hbit

theorem WorkInv_TriggerHBlankDMA (s : DMAController) (hr : s.run_set < 16) (h : WorkInv s) :
    WorkInv (TriggerHBlankDMA s) := by
  apply WorkInv_of_frame s _ h (trigger_effect s s.hblank_set hr).2.1
  intro j
  split_ifs
  · exact MarkDMAForExecution_dma s _ j
  · rfl

theorem WorkInv_TriggerVBlankDMA (s : DMAController) (hr : s.run_set < 16) (h : WorkInv s) :
    WorkInv (TriggerVBlankDMA s) := by
  apply WorkInv_of_frame s _ h (trigger_effect s s.vblank_set hr).2.1
  intro j
  split_ifs
  · exact MarkDMAForExecution_dma s _ j
  · rfl

theorem testBit_of_and (x m i : Nat) (h : (x &&& m).testBit i = true) : x.testBit i = true := by
  rw [Nat.testBit_and] at h
  cases hx : x.testBit i
  · rw [hx] at h
    exact absurd h (by simp)
  · rfl

theorem WorkInv_Run {M : Type} (cpu : CPU M) (sys : System M) (h : WorkInv sys.dmac) :
    WorkInv (Run cpu sys).dmac := by
  intro i hi hbit
  obtain ⟨⟨k, hk, -⟩, hlen⟩ := RunBurst_accounting cpu sys
  by_cases hci : sys.dmac.current.toNat = i
  · have hc4 : sys.dmac.current.toNat < 4 := by rw [hci]; exact hi
    cases hdone : (RunBurst cpu sys).completed with
    | false =>
      rw [Run_of_not_completed cpu sys hdone] at hbit ⊢
      rw [storeBurst_run_set] at hbit
      rw [← hci, storeBurst_dma_same sys _ hc4]
      have hold := h i hi hbit
      rw [← hci] at hold
      have h1 := hlen hdone
      show 1 ≤ (RunBurst cpu sys).length ∧
        (RunBurst cpu sys).length ≤ g_dma_len_mask.getD sys.dmac.current.toNat 0 + 1
      omega
    | true =>
      rw [Run_of_completed cpu sys hdone] at hbit ⊢
      have hc1 : (storeBurst sys (RunBurst cpu sys)).dmac.current.toNat
          = sys.dmac.current.toNat := by rw [storeBurst_current]
      have hd1 := storeBurst_dma_same sys (RunBurst cpu sys) hc4
      cases hrep : (sys.dmac.dma sys.dmac.current.toNat).repeat_ with
      | false =>
        have hrep1 : ((storeBurst sys (RunBurst cpu sys)).dmac.dma
            (storeBurst sys (RunBurst cpu sys)).dmac.current.toNat).repeat_ = false := by
          rw [hc1, hd1]; exact hrep
        obtain ⟨hrs, -⟩ := RunCompletion_no_repeat cpu _
          (sys.dmac.dma sys.dmac.current.toNat).dst_cntl hrep1
        rw [hrs, hc1, hci, clear_bit_self _ _ (by omega)] at hbit
        exact absurd hbit (by decide)
      | true =>
        have hrep1 : ((storeBurst sys (RunBurst cpu sys)).dmac.dma
            (storeBurst sys (RunBurst cpu sys)).dmac.current.toNat).repeat_ = true := by
          rw [hc1, hd1]; exact hrep
        obtain ⟨-, hdma⟩ := RunCompletion_repeat cpu _
          (sys.dmac.dma sys.dmac.current.toNat).dst_cntl hrep1
        rw [hc1] at hdma
        rw [← hci, hdma, dma_setDma_same _ _ _ hc4]
        exact latchLength_bounds _ _
  · have hsame := ((Run_frame cpu sys).2.2 i).2 hci
    rw [hsame]
    apply h i hi
    cases hdone : (RunBurst cpu sys).completed with
    | false =>
      rw [Run_of_not_completed cpu sys hdone, storeBurst_run_set] at hbit
      exact hbit
    | true =>
      rw [Run_of_completed cpu sys hdone] at hbit
      obtain ⟨-, -, -, hrs, -⟩ := RunCompletion_sched cpu (storeBurst sys (RunBurst cpu sys))
        (sys.dmac.dma sys.dmac.current.toNat).dst_cntl
      rcases hrs with e | e
      · rw [e, storeBurst_run_set] at hbit
        exact hbit
      · rw [e, storeBurst_run_set] at hbit
        exact testBit_of_and _ _ _ hbit

theorem WorkInv_of_Reachable {M : Type} (cpu : CPU M) (guarded : Bool) (sys : System M)
    (hr : Reachable cpu guarded sys) : WorkInv sys.dmac := by
  induction hr with
  | reset m irq_if => exact WorkInv_Reset
  | write id offset value hid hv _ ih => exact WorkInv_Write _ id offset value hid ih
  | hblank hprev ih =>
    exact WorkInv_TriggerHBlankDMA _ (SchedInv_of_Reachable cpu guarded _ hprev).1 ih
  | vblank hprev ih =>
    exact WorkInv_TriggerVBlankDMA _ (SchedInv_of_Reachable cpu guarded _ hprev).1 ih
  | run _ _ ih => exact WorkInv_Run cpu _ ih
  | env m irq_if _ ih => exact ih

/-! ## C19 -/

/-- C19: in every state reachable from Reset by Write (id in 0..3), the two triggers
and Run (whether or not Run is only called while run_set is non-empty, with any bus
and budget behaviour), every channel i in run_set has 1 <= internal.length <=
len_mask[i] + 1 (16384 for channels 0-2, 65536 for channel 3); hence, while run_set
is non-empty, the current channel c is in run_set, its latched length is not zero, and
one Run call makes k unit transfers (2k bus accesses) with k <= len_mask[c] + 1. -/
theorem pending_channels_have_work {M : Type} (cpu : CPU M) (guarded : Bool)
    (sys : System M) (hr : Reachable cpu guarded sys) :
    (∀ i, i < 4 → sys.dmac.run_set.testBit i = true →
      1 ≤ (sys.dmac.dma i).internal.length ∧
      (sys.dmac.dma i).internal.length ≤ g_dma_len_mask.getD i 0 + 1 ∧
      g_dma_len_mask.getD i 0 + 1 = (if i = 3 then 65536 else 16384)) ∧
    (sys.dmac.run_set ≠ 0 →
      ∃ c : Nat, c < 4 ∧ sys.dmac.current = (c : Int) ∧ sys.dmac.run_set.testBit c = true ∧
        (sys.dmac.dma c).internal.length ≠ 0 ∧
        ∃ k, k ≤ g_dma_len_mask.getD c 0 + 1 ∧
          (Run cpu sys).bus.length = sys.bus.length + 2 * k) := by
  have hw := WorkInv_of_Reachable cpu guarded sys hr
  obtain ⟨h1, h2⟩ := SchedInv_of_Reachable cpu guarded sys hr
  refine ⟨?_, ?_⟩
  · intro i hi hbit
    obtain ⟨a, b⟩ := hw i hi hbit
    refine ⟨a, b, ?_⟩
    interval_cases i <;> rfl
  · intro hne
    obtain ⟨c, hc, he, hb, -⟩ := table_lowest _ h1 hne
    have hcur : sys.dmac.current = (c : Int) := (h2 hne).trans he
    have hct : sys.dmac.current.toNat = c := by rw [hcur, Int.toNat_ofNat]
    obtain ⟨a, b⟩ := hw c hc hb
    obtain ⟨⟨k, hk, hbus⟩, -⟩ := RunBurst_accounting cpu sys
    rw [hct] at hk
    refine ⟨c, hc, hcur, hb, by omega, k, by omega, ?_⟩
    rw [Run_bus, hbus]

/-- Channel 2 armed from reset with Immediate timing, by writes only: the state is
reachable also when Run is guarded, channel 2 is in run_set and its latched length is
16384. -/
theorem pending_channels_have_work_witness :
    (Reachable demoCPU true preemptionExample ∧
      preemptionExample.dmac.run_set.testBit 2 = true) ∧
    1 ≤ (preemptionExample.dmac.dma 2).internal.length ∧
    (preemptionExample.dmac.dma 2).internal.length ≤ 16384 := by
  have hr : Reachable demoCPU true preemptionExample :=
    Reachable.write 2 11 0x80 (by decide) (by decide) (Reachable.reset 100 0)
  have h := (pending_channels_have_work demoCPU true preemptionExample hr).1 2 (by decide)
    (by decide)
  exact ⟨⟨hr, by decide⟩, h.1, h.2.1.trans (by decide)⟩

end NanoboyAdvance
